import Mathlib

/-!
# flutter_service_worker.js

A shallow embedding of the service worker in `flutter_service_worker.js`:
the resource manifest, the three cache regions, the `activate` listener,
the `fetch` listener, `onlineFirst` and `downloadOffline`.

Storage operations may raise, as decided by a fault oracle; a cache is a
store of responses under request URLs, matched without regard to the
fragment of the URL; the network and the resolution of a relative URL are
parameters.

JavaScript strings are modelled by `String`; request URLs and origins are
serialised URLs, hence ASCII, so character positions and UTF-16 positions
coincide.
-/

namespace FlutterSW

/-! ## JavaScript strings -/

/-- The JavaScript call `s.substring(start)`: the characters of `s` from position `start` on. -/
def substring (s : String) (start : Nat) : String := ⟨s.data.drop start⟩

/-- The JavaScript call `s.startsWith(p)`. -/
def startsWith (s p : String) : Bool := p.data.isPrefixOf s.data

/-- Whether `sep` occurs somewhere in the character list (`indexOf(sep) != -1`). -/
def occursIn (sep : List Char) : List Char → Bool
  | [] => sep.isEmpty
  | c :: cs => sep.isPrefixOf (c :: cs) || occursIn sep cs

/-- The characters before the first occurrence of `sep`; everything when `sep` does not occur. -/
def beforeFirst (sep : List Char) : List Char → List Char
  | [] => []
  | c :: cs => if sep.isPrefixOf (c :: cs) then [] else c :: beforeFirst sep cs

/-- The JavaScript test `s.indexOf(sep) != -1`. -/
def indexOfFound (s sep : String) : Bool := occursIn sep.data s.data

/-- The JavaScript expression `s.split(sep)[0]` for a non-empty separator. -/
def splitFirst (s sep : String) : String := ⟨beforeFirst sep.data s.data⟩

/-! ## JavaScript objects with string-valued own properties -/

/-- An object literal (or a parsed flat JSON object): its own properties, key to string value.
The prototype of such an object is `Object.prototype`. -/
abbrev JSObject := List (String × String)

/-- The property names every object inherits from `Object.prototype`. -/
def objectPrototypeNames : List String :=
  ["constructor", "__defineGetter__", "__defineSetter__", "hasOwnProperty",
   "__lookupGetter__", "__lookupSetter__", "isPrototypeOf", "propertyIsEnumerable",
   "toString", "valueOf", "__proto__", "toLocaleString"]

/-- What a property read `obj[key]` can yield on a `JSObject`. -/
inductive JSValue where
  /-- No own property and nothing inherited under that name. -/
  | undefined
  /-- An own property, a string. -/
  | str (s : String)
  /-- The built-in object found on `Object.prototype` under the given name. -/
  | inherited (name : String)
  deriving DecidableEq

/-- The property read `obj[key]`: own properties first, then the prototype chain. -/
def JSObject.get (obj : JSObject) (key : String) : JSValue :=
  match obj.lookup key with
  | some v => .str v
  | none => if key ∈ objectPrototypeNames then .inherited key else .undefined

/-- JavaScript truthiness of a property value. -/
def JSValue.truthy : JSValue → Bool
  | .undefined => false
  | .str s => s != ""
  | .inherited _ => true

/-- The loose inequality `a != b`. Comparing a string with a built-in object converts the
object to a primitive; `nativeText` gives that text, which the engine chooses. -/
def JSValue.looseNe (nativeText : String → String) : JSValue → JSValue → Bool
  | .undefined, .undefined => false
  | .str a, .str b => a != b
  | .inherited a, .inherited b => a != b
  | .str a, .inherited b => a != nativeText b
  | .inherited a, .str b => nativeText a != b
  | _, _ => true

/-- The surroundings of the worker: `self.location.origin`, a serialised origin, and the
primitive text of the built-in objects on `Object.prototype`. -/
structure Host where
  origin : String
  nativeText : String → String
  /-- A serialised origin (scheme, host, port) has no fragment mark. -/
  plain : '#' ∉ origin.data

def RESOURCES : JSObject := [
  (".git/COMMIT_EDITMSG", "4195f5692c7d0e399db615fd5e5b3d75"),
  (".git/config", "920a11de313bfb8d93d81f4a3a5b71b6"),
  (".git/description", "a0a7c3fff21f2aea3cfa1d0316dd816c"),
  (".git/HEAD", "4cf2d64e44205fe628ddd534e1151b58"),
  (".git/hooks/applypatch-msg.sample", "ce562e08d8098926a3862fc6e7905199"),
  (".git/hooks/commit-msg.sample", "579a3c1e12a1e74a98169175fb913012"),
  (".git/hooks/fsmonitor-watchman.sample", "a0b2633a2c8e97501610bd3f73da66fc"),
  (".git/hooks/post-update.sample", "2b7ea5cee3c49ff53d41e00785eb974c"),
  (".git/hooks/pre-applypatch.sample", "054f9ffb8bfe04a599751cc757226dda"),
  (".git/hooks/pre-commit.sample", "5029bfab85b1c39281aa9697379ea444"),
  (".git/hooks/pre-merge-commit.sample", "39cb268e2a85d436b9eb6f47614c3cbc"),
  (".git/hooks/pre-push.sample", "2c642152299a94e05ea26eae11993b13"),
  (".git/hooks/pre-rebase.sample", "56e45f2bcbc8226d2b4200f7c46371bf"),
  (".git/hooks/pre-receive.sample", "2ad18ec82c20af7b5926ed9cea6aeedd"),
  (".git/hooks/prepare-commit-msg.sample", "2b5c047bdb474555e1787db32b2d2fc5"),
  (".git/hooks/push-to-checkout.sample", "c7ab00c7784efeadad3ae9b228d4b4db"),
  (".git/hooks/sendemail-validate.sample", "4d67df3a8d5c98cb8565c07e42be0b04"),
  (".git/hooks/update.sample", "647ae13c682f7827c22f5fc08a03674e"),
  (".git/index", "fe49c1d868a671a6450757e73e76cdb8"),
  (".git/info/exclude", "036208b4a1ab4a235d75c181e685e5a3"),
  (".git/logs/HEAD", "783422cce2759826cc8392f135cab76c"),
  (".git/logs/refs/heads/master", "783422cce2759826cc8392f135cab76c"),
  (".git/objects/05/c5d24e2a6b7e791b7f84f1d9f2f7b56ccbe638", "d886ad57504404d4f07d472137a6f8f0"),
  (".git/objects/0a/79a57549fb344fc164f27c2eff85481f9b37a8", "0f8f5f7a095c18667d79730e834757e5"),
  (".git/objects/15/3160986373d0fac7a535d38b38ef2bf10521bb", "8fde4eb33272b689a95b3a0511e0c972"),
  (".git/objects/1a/d7683b343914430a62157ebf451b9b2aa95cac", "94fdc36a022769ae6a8c6c98e87b3452"),
  (".git/objects/1d/cbb0ddb3af35e728759be15d14e6849eca8cbb", "3473061643a7f63450ee094b203ec0f5"),
  (".git/objects/1e/73b4a33dae84d471bc033d6ccecbaf782b91af", "3216790f2924bd87a0fef3a606ae81ef"),
  (".git/objects/1f/56befa8c8bd13b9365aad018727e58bb85744e", "afab55e685ed30c748c3023549c0a28e"),
  (".git/objects/27/727f9643fc29560639f42f55baaf465b40be79", "65cf5d262163551d161bba43b317ff64"),
  (".git/objects/27/d6a0b0751dc908110d952998da2029f6425cdb", "faed6ca4725b627eb532413808ffe6ad"),
  (".git/objects/32/394e2226428fc19e0a56c25f4293d026cd96b5", "cb80bb79d957346f1ffbbcdb74144a2f"),
  (".git/objects/33/00536d9f802765ff61774d5c3d590dfae9455e", "dde922dbebe5679d0d5baf4bd1c9ab2f"),
  (".git/objects/3a/bf18c41c58c933308c244a875bf383856e103e", "30790d31a35e3622fd7b3849c9bf1894"),
  (".git/objects/3d/594d0fdb92852230c09f548bcdeb923df479f8", "5659c66bf36532b97a0840dae94b2ac5"),
  (".git/objects/41/797dc9108e90175162c835485bb5452499823c", "7bb8968b4c6130c803a0e09f8c7d17d0"),
  (".git/objects/43/8c13687145d1cf83116ac41a683cca870f9fe7", "aadddff86942db3d1474ab7a8bc60f31"),
  (".git/objects/4c/51fb2d35630595c50f37c2bf5e1ceaf14c1a1e", "a20985c22880b353a0e347c2c6382997"),
  (".git/objects/50/96f5607df97255b67d572daf78d9007054708f", "eab32b3cfa1ac998cccaef0d33b5d963"),
  (".git/objects/53/18a6956a86af56edbf5d2c8fdd654bcc943e88", "a686c83ba0910f09872b90fd86a98a8f"),
  (".git/objects/53/3d2508cc1abb665366c7c8368963561d8c24e0", "4592c949830452e9c2bb87f305940304"),
  (".git/objects/53/f38dbd458f12229fe6bd1e970209f662b389d5", "bac4dc214434542e426a02bfd322ef38"),
  (".git/objects/5a/0a3ad9e5d9f9ef7d482f8bfede8068113c3c91", "d6dba11d688a74c12068ea997b37d474"),
  (".git/objects/62/4d34e922ac4adf5998d774d2bc3621e89dede7", "ea47bfcffc296101811e0f102035413f"),
  (".git/objects/67/1967badeb253d30789751a6b1585d845ede023", "bdf73786c9e2f26456ed269336efc289"),
  (".git/objects/67/999ab782a1ca7050480395f9ea27a8ec35f3f1", "7d2ccd798a24b0c4bf2fe8b98e18722f"),
  (".git/objects/6c/c3f8764e307e2339950d4d7542abb60133c2d5", "ff7b5b2776107e15c3da4e18684d4f54"),
  (".git/objects/6c/f760cfda7d761c1e138f1f0e697dc00f9ef63e", "0ce258ade5ce14f0e02e4fa19d3801d6"),
  (".git/objects/6f/76f46e7a1b14bbfece224cddd9ba0c3faed32e", "73d7e793096200142bfa5c4febd47680"),
  (".git/objects/6f/fcd01ef809b6216dd33f843656f3f917b14305", "edc9cd91f7824e41b94b0e00f393fcc8"),
  (".git/objects/70/a234a3df0f8c93b4c4742536b997bf04980585", "d95736cd43d2676a49e58b0ee61c1fb9"),
  (".git/objects/71/0c5d29e2055a076470aca143d3b092da0bfac6", "75383e724bb28760abd0018c14189966"),
  (".git/objects/73/c63bcf89a317ff882ba74ecb132b01c374a66f", "6ae390f0843274091d1e2838d9399c51"),
  (".git/objects/8d/c22d03a7819572733cf542a5116914baf09e4b", "768335e4a0c0d1aab526a4b2c04cdd20"),
  (".git/objects/8e/3c7d6bbbef6e7cefcdd4df877e7ed0ee4af46e", "025a3d8b84f839de674cd3567fdb7b1b"),
  (".git/objects/9b/d3accc7e6a1485f4b1ddfbeeaae04e67e121d8", "784f8e1966649133f308f05f2d98214f"),
  (".git/objects/9f/babfccbfd2359a138f8a34006b4c6e999d1e05", "9a2fe033af20d5ea4f165f8e511a0cd0"),
  (".git/objects/a8/2656ce093f416f3e0f1a2c78c0f7654992720a", "98d76e81cccbc440523f93028ea3ec00"),
  (".git/objects/af/7ca36e1cbfa0c746e60ac4ccf9efa8df03443b", "fbd4fbeb7a04c82b4bd490254dff17c1"),
  (".git/objects/b9/6a5236065a6c0fb7193cb2bb2f538b2d7b4788", "4227e5e94459652d40710ef438055fe5"),
  (".git/objects/c7/37b9f6f146b86d8e7d379cfb3f3f6e3cc590b0", "f258700db45fc03572644c6b4f33cff9"),
  (".git/objects/c8/08fb85f7e1f0bf2055866aed144791a1409207", "92cdd8b3553e66b1f3185e40eb77684e"),
  (".git/objects/cb/741aeb246dedff793acf7d481bf3ed584b27bd", "f23605c2604e70e39233caeedbc282f8"),
  (".git/objects/d2/abaeb00045201fcdf359c7f87f17bacc1d5c5d", "46433f13570a88653c8a3ac147d79f48"),
  (".git/objects/d4/3532a2348cc9c26053ddb5802f0e5d4b8abc05", "3dad9b209346b1723bb2cc68e7e42a44"),
  (".git/objects/da/19fc72028dbf753181cf6fc1d6e4c3ad877409", "6413ec39c7654f57640cfc751ce4c7c8"),
  (".git/objects/dc/11fdb45a686de35a7f8c24f3ac5f134761b8a9", "761c08dfe3c67fe7f31a98f6e2be3c9c"),
  (".git/objects/e0/7ac7b837115a3d31ed52874a73bd277791e6bf", "74ebcb23eb10724ed101c9ff99cfa39f"),
  (".git/objects/e2/bff44a09238004faed1fa1bf38b7b989e62478", "9d5313cfb44b26e596bc27cfa614a920"),
  (".git/objects/eb/e6897a5f0439322666170f79246e1ea017f877", "87f305026a78df8e2b6e93abdad6839d"),
  (".git/objects/ee/8f9aac8283a8557576cca32e3c842bd64aaf1d", "a3b2cae991ce8651ce0f91553c9de1fb"),
  (".git/objects/f2/04823a42f2d890f945f70d88b8e2d921c6ae26", "6b47f314ffc35cf6a1ced3208ecc857d"),
  (".git/objects/fe/e343d9eec61d48cf6cee2d7fbf39cdc54e47be", "649b9b3700c4a87a5ac37b89fbcb2f71"),
  (".git/refs/heads/master", "43f2a1e59f11345e6411d1b589b7cb40"),
  ("assets/AssetManifest.bin", "4e5468d7f939b5c054e531fd1ce025f6"),
  ("assets/AssetManifest.bin.json", "ca03d32c319286140a0839781990df3c"),
  ("assets/AssetManifest.json", "a01cd110ba0c3ea38ea419bc82427e76"),
  ("assets/assets/data/sample_recipes.json", "c66ca327d74e8fed701c24381e50336a"),
  ("assets/assets/images/pixel_logo.webp", "d1e0723cfaf28109ddc64554b3ac33fa"),
  ("assets/FontManifest.json", "7b2a36307916a9721811788013e65289"),
  ("assets/fonts/MaterialIcons-Regular.otf", "1ec0b406f48c37ab1326f09cf24c8168"),
  ("assets/NOTICES", "cf842d837c8ca24de3ddb972eff5df8d"),
  ("assets/shaders/ink_sparkle.frag", "ecc85a2e95f5e9f53123dcaf8cb9b6ce"),
  ("canvaskit/canvaskit.js", "728b2d477d9b8c14593d4f9b82b484f3"),
  ("canvaskit/canvaskit.js.symbols", "bdcd3835edf8586b6d6edfce8749fb77"),
  ("canvaskit/canvaskit.wasm", "7a3f4ae7d65fc1de6a6e7ddd3224bc93"),
  ("canvaskit/chromium/canvaskit.js", "8191e843020c832c9cf8852a4b909d4c"),
  ("canvaskit/chromium/canvaskit.js.symbols", "b61b5f4673c9698029fa0a746a9ad581"),
  ("canvaskit/chromium/canvaskit.wasm", "f504de372e31c8031018a9ec0a9ef5f0"),
  ("canvaskit/skwasm.js", "ea559890a088fe28b4ddf70e17e60052"),
  ("canvaskit/skwasm.js.symbols", "e72c79950c8a8483d826a7f0560573a1"),
  ("canvaskit/skwasm.wasm", "39dd80367a4e71582d234948adc521c0"),
  ("CNAME", "f395819fab7491bc9b9ffad4ebde51e4"),
  ("flutter.js", "83d881c1dbb6d6bcd6b42e274605b69c"),
  ("flutter_bootstrap.js", "039e48ea895ef01abc4385e4e94e267a"),
  ("icons/Recipe%20Icons.webp", "6a676d6a8ce8de5b1211cad179b99007"),
  ("index.html", "591c589e18925b767ca50b5ecfac3fe4"),
  ("/", "591c589e18925b767ca50b5ecfac3fe4"),
  ("main.dart.js", "33ca2f5b7b7564cda7b0f0c6139f8cab"),
  ("manifest.json", "7f092b4e542255f4f565632f8fca9ce6"),
  ("version.json", "a228ddb54370277ff0ffc80b88247165")]

/-- The application shell files (`CORE`). -/
def CORE : List String :=
  ["main.dart.js", "index.html", "flutter_bootstrap.js",
   "assets/AssetManifest.bin.json", "assets/FontManifest.json"]

/-- Whether `key` is one of the own keys of the manifest. -/
def isManifestKey (key : String) : Bool := (RESOURCES.lookup key).isSome

/-- The key the `activate` listener (and `downloadOffline`) computes for a cached request:
`request.url.substring(origin.length + 1)`, with the empty key replaced by `"/"`. -/
def cacheKey (origin url : String) : String :=
  let key := substring url (origin.length + 1)
  if key == "" then "/" else key

/-- The key the `fetch` listener derives for a request URL. -/
def fetchKey (origin url : String) : String :=
  let key := substring url (origin.length + 1)
  let key := if indexOfFound key "?v=" then splitFirst key "?v=" else key
  if url == origin || startsWith url (origin ++ "/#") || key == "" then "/" else key

/-! ## Cache regions -/

/-- A response body: plain text, or the text `JSON.stringify(obj)` of a flat manifest object.
The manifest record region is only ever written with the second kind. -/
inductive Body where
  | text (s : String)
  | manifest (obj : JSObject)
  deriving DecidableEq

/-- A response: its body and its `ok` flag (status in the range 200-299). -/
structure Response where
  body : Body
  ok : Bool
  deriving DecidableEq

/-- A request as the `fetch` listener sees it. -/
structure Request where
  method : String
  url : String
  deriving DecidableEq

/-- The URL without its fragment: the characters before the first `#`. -/
def stripFragment (url : String) : String := ⟨url.data.takeWhile (fun ch => ch != '#')⟩

/-- Whether two request URLs match in a cache: they are equal once the fragment is left
out. -/
def sameResource (a b : String) : Bool := stripFragment a == stripFragment b

/-- One cache: stored request URL to response, in insertion order. No two stored requests
match each other, as `put` replaces what matches. -/
structure Cache where
  entries : List (String × Response)
  distinct : entries.Pairwise (fun a b => sameResource a.1 b.1 = false)

instance : DecidableEq Cache := fun a b =>
  decidable_of_iff (a.entries = b.entries) (by
    cases a; cases b
    simp)

/-- The empty cache. -/
def Cache.empty : Cache := ⟨[], List.Pairwise.nil⟩

/-- The call `cache.match(request)`: the response of the stored request that matches. -/
def Cache.find (c : Cache) (url : String) : Option Response :=
  (c.entries.find? (fun e => sameResource e.1 url)).map Prod.snd

/-- The call `cache.delete(request)`: what matches the request is removed. -/
def Cache.remove (c : Cache) (url : String) : Cache :=
  ⟨c.entries.filter (fun e => !sameResource e.1 url),
    c.distinct.sublist (List.filter_sublist _)⟩

/-- The call `cache.put(request, response)`: what matches the request is replaced. -/
def Cache.put (c : Cache) (url : String) (r : Response) : Cache :=
  ⟨c.entries.filter (fun e => !sameResource e.1 url) ++ [(url, r)], by
    rw [List.pairwise_append]
    refine ⟨c.distinct.sublist (List.filter_sublist _), List.pairwise_singleton _ _, ?_⟩
    intro a ha b hb
    simp only [List.mem_singleton] at hb
    subst hb
    simpa using (List.mem_filter.mp ha).2⟩

/-- The call `cache.keys()`. -/
def Cache.keys (c : Cache) : List String := c.entries.map Prod.fst

/-- The three named regions: `CACHE_NAME`, `TEMP` and `MANIFEST`. -/
inductive Region where
  | content
  | temp
  | manifest
  deriving DecidableEq

/-- The `caches` storage of the browser: for each region the cache, or `none` when the region
does not exist (never opened, or deleted). -/
structure CacheStorage where
  content : Option Cache
  temp : Option Cache
  manifest : Option Cache
  deriving DecidableEq

/-- The cache stored under a region name, if the region exists. -/
def CacheStorage.region (s : CacheStorage) : Region → Option Cache
  | .content => s.content
  | .temp => s.temp
  | .manifest => s.manifest

/-- Replace what is stored under a region name. -/
def CacheStorage.set (s : CacheStorage) (r : Region) (c : Option Cache) : CacheStorage :=
  match r with
  | .content => { s with content := c }
  | .temp => { s with temp := c }
  | .manifest => { s with manifest := c }

/-- The entries of a region; a region that does not exist has none. -/
def CacheStorage.cache (s : CacheStorage) (r : Region) : Cache := (s.region r).getD Cache.empty

/-! ## Effects, failures and asynchronous tasks -/

/-- The storage, network and client operations the worker performs. -/
inductive Effect where
  | cachesOpen (r : Region)
  | cachesDelete (r : Region)
  | cacheMatch (r : Region) (url : String)
  | cachePut (r : Region) (url : String)
  | cacheDelete (r : Region) (url : String)
  | cacheKeys (r : Region)
  | readJson
  | clientsClaim
  | fetch (url : String)
  | cacheAddAll (r : Region) (keys : List String)
  /-- The attempt of an operation that raised. -/
  | raised (e : Effect)
  deriving DecidableEq

/-- What a rejected step carries. -/
inductive JSError where
  /-- The storage operation raised. -/
  | storage (e : Effect)
  /-- A `TypeError`, as from `cache.put(request, undefined)`. -/
  | typeError
  /-- A `SyntaxError`, as from reading a malformed body with `json()`. -/
  | syntaxError
  /-- The network fetch failed. -/
  | network (reason : String)
  /-- A `ReferenceError`, from reading an identifier that is not bound. -/
  | referenceError
  deriving DecidableEq

/-- The state the worker acts on: the cache storage, and the operations performed so far. -/
structure World where
  caches : CacheStorage
  trace : List Effect
  deriving DecidableEq

/-- How an awaited task ends: with a value, or by raising; either way in some state. -/
inductive Outcome (α : Type) where
  | ok (a : α) (w : World)
  | threw (err : JSError) (w : World)
  deriving DecidableEq

/-- An asynchronous task, run to its end from a state. -/
def Async (α : Type) : Type := World → Outcome α

/-- A task that ends at once with `a`. -/
def Async.pure {α : Type} (a : α) : Async α := fun w => .ok a w

/-- Sequencing: `await t`, then `f` on its value; a raised error skips `f`. -/
def Async.bind {α β : Type} (t : Async α) (f : α → Async β) : Async β := fun w =>
  match t w with
  | .ok a w1 => f a w1
  | .threw err w1 => .threw err w1

instance : Monad Async where
  pure := Async.pure
  bind := Async.bind

/-- The statement `throw err`. -/
def raise {α : Type} (err : JSError) : Async α := fun w => .threw err w

/-- The construct `try { body } catch (err) { handler }`. -/
def tryCatch {α : Type} (body : Async α) (handler : JSError → Async α) : Async α := fun w =>
  match body w with
  | .ok a w1 => .ok a w1
  | .threw err w1 => handler err w1

/-- A promise that is started but not awaited: a rejection is not observed. -/
def detached (t : Async Unit) : Async Unit := fun w =>
  match t w with
  | .ok _ w1 => .ok () w1
  | .threw _ w1 => .ok () w1

/-- A loop `for (var x of xs) { await body(x) }`. -/
def forEach {α : Type} : List α → (α → Async Unit) → Async Unit
  | [], _ => Async.pure ()
  | x :: xs, body => Async.bind (body x) (fun _ => forEach xs body)

/-- Which storage operations raise: decided from the operations performed so far and the
operation attempted. -/
abbrev Faults := List Effect → Effect → Bool

/-- No storage operation raises. -/
def noFault : Faults := fun _ _ => false

/-- One storage operation: it raises when `fails` says so, leaving the storage as it is, and
otherwise acts on the storage; either way the attempt is recorded in the trace. -/
def step {α : Type} (fails : Faults) (e : Effect) (f : CacheStorage → α × CacheStorage) :
    Async α := fun w =>
  if fails w.trace e then .threw (.storage e) ⟨w.caches, w.trace ++ [.raised e]⟩
  else .ok (f w.caches).1 ⟨(f w.caches).2, w.trace ++ [e]⟩

/-- The call `caches.open(name)`: the region is created empty when it does not exist. -/
def cachesOpen (fails : Faults) (r : Region) : Async Unit :=
  step fails (.cachesOpen r) (fun s => ((), s.set r (some (s.cache r))))

/-- The call `caches.delete(name)`. -/
def cachesDelete (fails : Faults) (r : Region) : Async Unit :=
  step fails (.cachesDelete r) (fun s => ((), s.set r none))

/-- The call `cache.match(request)` on the cache of region `r`. -/
def cacheMatch (fails : Faults) (r : Region) (url : String) : Async (Option Response) :=
  step fails (.cacheMatch r url) (fun s => ((s.cache r).find url, s))

/-- The call `cache.keys()` on the cache of region `r`. -/
def cacheKeys (fails : Faults) (r : Region) : Async (List String) :=
  step fails (.cacheKeys r) (fun s => ((s.cache r).keys, s))

/-- The call `cache.put(request, response)` on the cache of region `r`; an `undefined`
response is a `TypeError`. -/
def cachePut (fails : Faults) (r : Region) (url : String) : Option Response → Async Unit
  | none => raise .typeError
  | some resp => step fails (.cachePut r url) (fun s => ((), s.set r (some ((s.cache r).put url resp))))

/-- The call `cache.delete(request)` on the cache of region `r`. -/
def cacheDelete (fails : Faults) (r : Region) (url : String) : Async Unit :=
  step fails (.cacheDelete r url) (fun s => ((), s.set r (some ((s.cache r).remove url))))

/-- The call `response.json()`, on a manifest record. -/
def readJson (fails : Faults) (m : Response) : Async JSObject :=
  match m.body with
  | .manifest obj => step fails .readJson (fun s => (obj, s))
  | .text _ => raise .syntaxError

/-- The call `self.clients.claim()`, not awaited. -/
def clientsClaim : Async Unit := fun w => .ok () { w with trace := w.trace ++ [.clientsClaim] }

/-- The call `fetch(request)`: the network answers with a response or fails. -/
def fetchNet (net : String → Except String Response) (url : String) : Async Response := fun w =>
  match net url with
  | .ok r => .ok r { w with trace := w.trace ++ [.fetch url] }
  | .error reason => .threw (.network reason) { w with trace := w.trace ++ [.fetch url] }

/-! ## The `activate` listener -/

/-- The response `new Response(JSON.stringify(RESOURCES))`. -/
def manifestRecord : Response := ⟨.manifest RESOURCES, true⟩

/-- The loop that copies every entry of the `TEMP` cache into the content cache. -/
def copyTemp (fails : Faults) : Async Unit := do
  let keys ← cacheKeys fails .temp
  forEach keys (fun request => do
    let response ← cacheMatch fails .temp request
    cachePut fails .content request response)

/-- The test of the prune loop: `!RESOURCES[key] || RESOURCES[key] != oldManifest[key]`. -/
def stale (host : Host) (oldManifest : JSObject) (key : String) : Bool :=
  !(RESOURCES.get key).truthy ||
    (RESOURCES.get key).looseNe host.nativeText (oldManifest.get key)

/-- The body of the `try` block of the `activate` listener. -/
def activateBody (host : Host) (fails : Faults) : Async Unit := do
  cachesOpen fails .content
  cachesOpen fails .temp
  cachesOpen fails .manifest
  let manifest ← cacheMatch fails .manifest "manifest"
  match manifest with
  | none =>
    cachesDelete fails .content
    cachesOpen fails .content
    copyTemp fails
    cachesDelete fails .temp
    cachePut fails .manifest "manifest" (some manifestRecord)
    clientsClaim
  | some record =>
    let oldManifest ← readJson fails record
    let keys ← cacheKeys fails .content
    forEach keys (fun request =>
      if stale host oldManifest (cacheKey host.origin request) then
        cacheDelete fails .content request
      else Async.pure ())
    copyTemp fails
    cachesDelete fails .temp
    cachePut fails .manifest "manifest" (some manifestRecord)
    clientsClaim

/-- The task the `activate` listener hands to `event.waitUntil`: the body, and on any error
the deletion of the three regions. -/
def activate (host : Host) (fails : Faults) : Async Unit :=
  tryCatch (activateBody host fails) (fun _ => do
    cachesDelete fails .content
    cachesDelete fails .temp
    cachesDelete fails .manifest)

/-! ## The `fetch` listener -/

/-- What the `fetch` listener did with the event. -/
inductive Reply where
  /-- It returned without calling `event.respondWith`. -/
  | passThrough
  /-- It called `event.respondWith` with a promise that resolved to a response. -/
  | responded (r : Response)
  /-- It called `event.respondWith` with a promise that rejected. -/
  | rejected (err : JSError)
  deriving DecidableEq

/-- The promise of the cache-first branch. -/
def cacheFirst (net : String → Except String Response) (fails : Faults) (url : String) :
    Async Response := do
  cachesOpen fails .content
  let response ← cacheMatch fails .content url
  match response with
  | some cached => Async.pure cached
  | none =>
    let response ← fetchNet net url
    if response.ok then
      detached (cachePut fails .content url (some response))
    Async.pure response

/-- The promise of `onlineFirst`. -/
def onlineFirst (net : String → Except String Response) (fails : Faults) (url : String) :
    Async Response :=
  tryCatch
    (do
      let response ← fetchNet net url
      cachesOpen fails .content
      detached (cachePut fails .content url (some response))
      Async.pure response)
    (fun error => do
      cachesOpen fails .content
      let response ← cacheMatch fails .content url
      match response with
      | some cached => Async.pure cached
      | none => raise error)

/-- Settle the promise given to `event.respondWith`. -/
def respond (p : Async Response) (w : World) : Reply × World :=
  match p w with
  | .ok r w1 => (.responded r, w1)
  | .threw err w1 => (.rejected err, w1)

/-- The `fetch` listener. -/
def onFetch (host : Host) (net : String → Except String Response) (fails : Faults)
    (request : Request) (w : World) : Reply × World :=
  if request.method != "GET" then (.passThrough, w)
  else
    let key := fetchKey host.origin request.url
    if !(RESOURCES.get key).truthy then (.passThrough, w)
    else if key == "/" then respond (onlineFirst net fails request.url) w
    else respond (cacheFirst net fails request.url) w

/-! ## `downloadOffline` -/

/-- The URL resolution of the worker served from the root of its origin: the key `"/"` is
the address `origin + "/"`, any other key `k` is `origin + "/" + k`. -/
def rootResolve (origin : String) (key : String) : String :=
  if key == "/" then origin ++ "/" else origin ++ "/" ++ key

/-- The responses to a batch of requests; the batch fails, with a `TypeError`, when one fetch
fails or one response is not ok. -/
def fetchAll (net : String → Except String Response) :
    List String → Except JSError (List (String × Response))
  | [] => .ok []
  | url :: rest =>
    match net url with
    | .error _ => .error .typeError
    | .ok r =>
      if r.ok then
        match fetchAll net rest with
        | .ok pairs => .ok ((url, r) :: pairs)
        | .error err => .error err
      else .error .typeError

/-- The call `cache.addAll(keys)` on the cache of region `r`: every key is resolved to a URL
and fetched; the responses are stored only when the whole batch succeeded. -/
def cacheAddAll (resolve : String → String) (net : String → Except String Response)
    (fails : Faults) (r : Region) (keys : List String) : Async Unit := fun w =>
  if fails w.trace (.cacheAddAll r keys) then
    .threw (.storage (.cacheAddAll r keys)) ⟨w.caches, w.trace ++ [.raised (.cacheAddAll r keys)]⟩
  else
    let tr := w.trace ++ [.cacheAddAll r keys] ++ (keys.map resolve).map Effect.fetch
    match fetchAll net (keys.map resolve) with
    | .error err => .threw err ⟨w.caches, tr⟩
    | .ok pairs =>
      .ok () ⟨w.caches.set r (some (pairs.foldl (fun c p => c.put p.1 p.2) (w.caches.cache r))), tr⟩

/-- The first loop of `downloadOffline`: for every request of the content cache the key
`request.url.substring(origin.length + 1)` (empty replaced by `"/"`) is set in
`currentContent`. The identifier `origin` is not declared in `downloadOffline`: it reads the
global of that name, `globalOrigin`, and raises a `ReferenceError` when there is none. -/
def markContent (globalOrigin : Option String) : List String → List String → Async (List String)
  | [], currentContent => Async.pure currentContent
  | url :: rest, currentContent =>
    match globalOrigin with
    | none => raise .referenceError
    | some origin => markContent globalOrigin rest (cacheKey origin url :: currentContent)

/-- The truthiness of the read `currentContent[key]`, where `currentContent` started as `{}`
and had the listed keys set to `true`. -/
def currentRead (currentContent : List String) (key : String) : Bool :=
  currentContent.contains key || objectPrototypeNames.contains key

/-- The function `downloadOffline`. -/
def downloadOffline (globalOrigin : Option String) (resolve : String → String)
    (net : String → Except String Response) (fails : Faults) : Async Unit := do
  cachesOpen fails .content
  let keys ← cacheKeys fails .content
  let currentContent ← markContent globalOrigin keys []
  let resources := (RESOURCES.map Prod.fst).filter
    (fun resourceKey => !currentRead currentContent resourceKey)
  cacheAddAll resolve net fails .content resources

/-- The state in which a task ended. -/
def Outcome.world {α : Type} : Outcome α → World
  | .ok _ w => w
  | .threw _ w => w

/-! ## Pure descriptions of the two loops -/

/-- The list `resources` that `downloadOffline` builds from the requests `urls` of the
content cache: the keys of `RESOURCES`, in order, whose read in `currentContent` is falsy. -/
def absentKeys (origin : String) (urls : List String) : List String :=
  (RESOURCES.map Prod.fst).filter (fun resourceKey =>
    !currentRead ((urls.map (cacheKey origin)).reverse) resourceKey)


/-- The content cache after the copy loop has run over the keys `ks` of the `TEMP` cache `t`. -/
def copyInto (t : Cache) : List String → Cache → Cache
  | [], c => c
  | u :: us, c =>
    match t.find u with
    | some r => copyInto t us (c.put u r)
    | none => c

/-- The content cache after the prune loop has run over the keys `ks`. -/
def pruneLoop (host : Host) (oldManifest : JSObject) : List String → Cache → Cache
  | [], c => c
  | u :: us, c =>
    if stale host oldManifest (cacheKey host.origin u) then
      pruneLoop host oldManifest us (c.remove u)
    else pruneLoop host oldManifest us c

/-! ## The `catch` block -/

/-- Whether the three deletions of the `catch` block run without raising, from the state
in which the error was caught. -/
def teardownRuns (fails : Faults) (w : World) : Bool :=
  !fails w.trace (.cachesDelete .content) &&
  !fails (w.trace ++ [.cachesDelete .content]) (.cachesDelete .temp) &&
  !fails (w.trace ++ [.cachesDelete .content, .cachesDelete .temp]) (.cachesDelete .manifest)

/-! ## Statements about every way a task can end -/

/-- The task `t`, run from `w`, ends in a state satisfying `post` when it returns, and in a
state satisfying `exc` when it raises. -/
def Async.ends {α : Type} (t : Async α) (w : World) (post : α → World → Prop)
    (exc : World → Prop) : Prop :=
  match t w with
  | .ok a w1 => post a w1
  | .threw _ w1 => exc w1

/-- Whether an operation writes to, or deletes from, the manifest record region. -/
def writesManifest : Effect → Bool
  | .cachePut .manifest _ => true
  | .cacheDelete .manifest _ => true
  | .cachesDelete .manifest => true
  | .cacheAddAll .manifest _ => true
  | _ => false

/-- The state `w` is reached from `w0` by operations that leave the manifest record region
as it was: the entries of the region are those of `w0`, and the trace grew by operations
that do not write to the region. -/
def recordUntouched (w0 w : World) : Prop :=
  w.caches.cache .manifest = w0.caches.cache .manifest ∧
    ∃ ops, w.trace = w0.trace ++ ops ∧ ∀ e ∈ ops, writesManifest e = false

/-! ## Key derivation in the words of the specification -/

/-- The position of the first occurrence of `sep` in the character list, if there is one. -/
def firstIndex (sep : List Char) : List Char → Option Nat
  | [] => if sep.isEmpty then some 0 else none
  | c :: cs => if sep.isPrefixOf (c :: cs) then some 0 else (firstIndex sep cs).map (· + 1)

/-- Remove the leading `p` from `s` when `s` begins with it. -/
def stripLeading (p s : List Char) : List Char :=
  if p.isPrefixOf s then s.drop p.length else s

/-- The candidate key of the specification: the address with the origin and the `/` after
it stripped, cut at the first version marker `?v=`. -/
def specCandidate (origin url : String) : String :=
  let path := stripLeading ['/'] (stripLeading origin.data url.data)
  match firstIndex "?v=".data path with
  | some i => ⟨path.take i⟩
  | none => ⟨path⟩

/-- The key of the specification: the sentinel `"/"` for the bare origin, for an address that
begins with the origin followed by `/#`, and for an empty candidate; the candidate otherwise. -/
def specFetchKey (origin url : String) : String :=
  if url = origin ∨ startsWith url (origin ++ "/#") = true ∨ specCandidate origin url = "" then "/"
  else specCandidate origin url

/-! ## Concrete states -/

/-- The text an engine gives for the built-in object inherited under a name: the object
`Object.prototype` for `__proto__`, the function `Object` for `constructor`, and the function
of the same name otherwise. -/
def exampleNativeText (name : String) : String :=
  if name == "__proto__" then "[object Object]"
  else if name == "constructor" then "function Object() \x7b [native code] \x7d"
  else "function " ++ name ++ "() \x7b [native code] \x7d"

/-- A host: an origin, and the text an engine prints for the built-in objects. -/
def exampleHost : Host := ⟨"https://app.example", exampleNativeText, by decide⟩

/-- An upgrade: the record lists `main.dart.js` with fingerprint `m0` and an `old.js`; the
content cache holds both and an entry for the path `toString`; a fresh `main.dart.js` and
`index.html` are staged. -/
def upgradeWorld : World :=
  ⟨⟨some ⟨[("https://app.example/main.dart.js", ⟨.text "m0", true⟩),
          ("https://app.example/toString", ⟨.text "t", true⟩),
          ("https://app.example/old.js", ⟨.text "o", true⟩)], by decide⟩,
    some ⟨[("https://app.example/main.dart.js", ⟨.text "m1", true⟩),
          ("https://app.example/index.html", ⟨.text "i1", true⟩)], by decide⟩,
    some ⟨[("manifest", ⟨.manifest [("main.dart.js", "m0"), ("old.js", "x")], true⟩)],
      by decide⟩⟩, []⟩

/-- A first launch: nothing recorded, a leftover entry in the content cache, two files staged. -/
def firstLaunchWorld : World :=
  ⟨⟨some ⟨[("https://app.example/leftover.js", ⟨.text "l", true⟩)], by decide⟩,
    some ⟨[("https://app.example/main.dart.js", ⟨.text "m1", true⟩),
          ("https://app.example/index.html", ⟨.text "i1", true⟩)], by decide⟩,
    none⟩, []⟩

/-- An upgrade whose staging region holds exactly the `CORE` requests, while the content
cache holds an entry for the path `valueOf`. -/
def coreStagedWorld : World :=
  ⟨⟨some ⟨[("https://app.example/valueOf", ⟨.text "v", true⟩)], by decide⟩,
    some ⟨CORE.map (fun key => ("https://app.example/" ++ key, ⟨.text key, true⟩)), by decide⟩,
    some ⟨[("manifest", ⟨.manifest [("main.dart.js", "m0"), ("old.js", "x")], true⟩)],
      by decide⟩⟩, []⟩

/-- Every `put` on the content cache raises. -/
def contentPutFails : Faults := fun _ e =>
  match e with
  | .cachePut .content _ => true
  | _ => false

/-- Every `put` on the content cache raises, and so does every deletion of a region. -/
def putAndDeleteFail : Faults := fun _ e =>
  match e with
  | .cachePut .content _ => true
  | .cachesDelete _ => true
  | _ => false

/-- The deletion of the content region raises the first time it is attempted, and not
afterwards. -/
def contentDeleteFailsOnce : Faults := fun tr e =>
  e == .cachesDelete .content && !tr.contains (.raised (.cachesDelete .content))

/-- The deletion of the content region always raises. -/
def contentDeleteFails : Faults := fun _ e => e == .cachesDelete .content

/-- The state in which `activateBody` stops on `upgradeWorld` when every `put` on the content
cache raises: the prune loop has run, nothing has been copied. -/
def putFailedWorld : World :=
  ⟨⟨some ⟨[("https://app.example/toString", ⟨.text "t", true⟩)], by decide⟩,
    some ⟨[("https://app.example/main.dart.js", ⟨.text "m1", true⟩),
          ("https://app.example/index.html", ⟨.text "i1", true⟩)], by decide⟩,
    some ⟨[("manifest", ⟨.manifest [("main.dart.js", "m0"), ("old.js", "x")], true⟩)],
      by decide⟩⟩,
   [.cachesOpen .content, .cachesOpen .temp, .cachesOpen .manifest,
    .cacheMatch .manifest "manifest", .readJson, .cacheKeys .content,
    .cacheDelete .content "https://app.example/main.dart.js",
    .cacheDelete .content "https://app.example/old.js",
    .cacheKeys .temp, .cacheMatch .temp "https://app.example/main.dart.js",
    .raised (.cachePut .content "https://app.example/main.dart.js")]⟩

/-- The state in which `activateBody` stops on `firstLaunchWorld` when the first deletion of
the content region raises: the three regions are open, nothing else has changed. -/
def deleteFailedWorld : World :=
  ⟨⟨some ⟨[("https://app.example/leftover.js", ⟨.text "l", true⟩)], by decide⟩,
    some ⟨[("https://app.example/main.dart.js", ⟨.text "m1", true⟩),
          ("https://app.example/index.html", ⟨.text "i1", true⟩)], by decide⟩,
    some Cache.empty⟩,
   [.cachesOpen .content, .cachesOpen .temp, .cachesOpen .manifest,
    .cacheMatch .manifest "manifest", .raised (.cachesDelete .content)]⟩

/-- The state in which `activate` ends on `upgradeWorld` when every `put` on the content
cache and every deletion of a region raises: the three regions are still there. -/
def stuckWorld : World :=
  ⟨putFailedWorld.caches, putFailedWorld.trace ++ [.raised (.cachesDelete .content)]⟩

/-- An upgrade whose manifest record cannot be read as JSON. -/
def malformedRecordWorld : World :=
  ⟨⟨some ⟨[("https://app.example/main.dart.js", ⟨.text "m0", true⟩)], by decide⟩,
    some ⟨[("https://app.example/main.dart.js", ⟨.text "m1", true⟩),
          ("https://app.example/index.html", ⟨.text "i1", true⟩)], by decide⟩,
    some ⟨[("manifest", ⟨.text "not json", true⟩)], by decide⟩⟩, []⟩

/-- The state in which `activate` ends on `malformedRecordWorld` when the deletion of the
content region raises: the staging region still holds the two staged files. -/
def staleStagingWorld : World :=
  ⟨malformedRecordWorld.caches,
   [.cachesOpen .content, .cachesOpen .temp, .cachesOpen .manifest,
    .cacheMatch .manifest "manifest", .raised (.cachesDelete .content)]⟩

/-- A network that answers every request with the same ok response. -/
def exampleNet : String → Except String Response := fun _ => .ok ⟨.text "page", true⟩

/-- A state with no region and no operation performed. -/
def emptyWorld : World := ⟨⟨none, none, none⟩, []⟩

/-- A state whose content cache holds one asset and the entry document. -/
def servingWorld : World :=
  ⟨⟨some ⟨[("https://app.example/version.json", ⟨.text "v1", true⟩),
          ("https://app.example/", ⟨.text "old page", true⟩)], by decide⟩, none, none⟩, []⟩

/-- A state whose content cache holds the entry document as `onlineFirst` stored it for a
request with a fragment. -/
def hashRouteWorld : World :=
  ⟨⟨some ⟨[("https://app.example/#/home", ⟨.text "old page", true⟩)], by decide⟩,
    none, none⟩, []⟩

/-- A network that answers every request with a server error page, a response that is not ok. -/
def errorPageNet : String → Except String Response := fun _ => .ok ⟨.text "server error", false⟩

/-- A network that cannot be reached. -/
def offlineNet : String → Except String Response := fun _ => .error "offline"

/-- An upgrade with an unchanged manifest: the content cache holds `main.dart.js` as the
`fetch` listener stored it for a request that carried a version parameter. -/
def versionedWorld : World :=
  ⟨⟨some ⟨[("https://app.example/main.dart.js?v=1", ⟨.text "m", true⟩)], by decide⟩,
    some Cache.empty,
    some ⟨[("manifest", ⟨.manifest RESOURCES, true⟩)], by decide⟩⟩, []⟩

/-- An upgrade with an unchanged manifest: the content cache holds `main.dart.js` under its
plain address. -/
def plainWorld : World :=
  ⟨⟨some ⟨[("https://app.example/main.dart.js", ⟨.text "m", true⟩)], by decide⟩,
    some Cache.empty,
    some ⟨[("manifest", ⟨.manifest RESOURCES, true⟩)], by decide⟩⟩, []⟩

/-- The state in which `activate` ends on `upgradeWorld` when every `put` on the content
cache raises: the three regions are deleted. -/
def tornDownWorld : World :=
  ⟨⟨none, none, none⟩,
    putFailedWorld.trace ++
      [.cachesDelete .content, .cachesDelete .temp, .cachesDelete .manifest]⟩


/-! # Lemmas and theorems -/


/-! ## Lemmas on caches -/

theorem sameResource_iff (a b : String) :
    sameResource a b = true ↔ stripFragment a = stripFragment b := by
  simp [sameResource]

theorem sameResource_refl (a : String) : sameResource a a = true := by
  simp [sameResource]

theorem sameResource_symm (a b : String) : sameResource a b = sameResource b a := by
  rw [Bool.eq_iff_iff, sameResource_iff, sameResource_iff]
  exact eq_comm

theorem sameResource_congr (a b v : String) (h : sameResource a b = true) :
    sameResource a v = sameResource b v := by
  rw [sameResource_iff] at h
  rw [Bool.eq_iff_iff, sameResource_iff, sameResource_iff, h]

theorem sameResource_congr_right (a b v : String) (h : sameResource a b = true) :
    sameResource v a = sameResource v b := by
  rw [sameResource_symm v a, sameResource_symm v b]
  exact sameResource_congr a b v h

theorem Cache.ext (a b : Cache) (h : a.entries = b.entries) : a = b := by
  cases a; cases b
  simp only at h
  subst h
  rfl

theorem find?_filter_same (l : List (String × Response)) (u v : String) :
    (l.filter (fun e => !sameResource e.1 u)).find? (fun e => sameResource e.1 v) =
      if sameResource v u = true then none
      else l.find? (fun e => sameResource e.1 v) := by
  induction l with
  | nil => simp
  | cons e l ih =>
    by_cases heu : sameResource e.1 u = true
    · have hf : List.filter (fun e => !sameResource e.1 u) (e :: l) =
          List.filter (fun e => !sameResource e.1 u) l := by
        simp [List.filter_cons, heu]
      rw [hf, ih]
      by_cases hvu : sameResource v u = true
      · simp [hvu]
      · have hev : sameResource e.1 v = false := by
          rw [sameResource_congr e.1 u v heu, sameResource_symm]
          simpa using hvu
        simp [hvu, List.find?_cons, hev]
    · have heu2 : sameResource e.1 u = false := by simpa using heu
      have hf : List.filter (fun e => !sameResource e.1 u) (e :: l) =
          e :: List.filter (fun e => !sameResource e.1 u) l := by
        simp [List.filter_cons, heu2]
      rw [hf]
      by_cases hvu : sameResource v u = true
      · have hev : sameResource e.1 v = false := by
          rw [sameResource_congr_right v u e.1 hvu]
          exact heu2
        simp only [List.find?_cons, hev, ih, hvu, if_true]
      · by_cases hev : sameResource e.1 v = true
        · simp [List.find?_cons, hev, hvu]
        · have hev2 : sameResource e.1 v = false := by simpa using hev
          simp only [List.find?_cons, hev2, ih, hvu]

theorem Cache.find_remove (c : Cache) (u v : String) :
    (c.remove u).find v = if sameResource v u = true then none else c.find v := by
  simp only [Cache.remove, Cache.find, find?_filter_same]
  by_cases h : sameResource v u = true <;> simp [h]

theorem Cache.find_put (c : Cache) (u v : String) (r : Response) :
    (c.put u r).find v = if sameResource v u = true then some r else c.find v := by
  simp only [Cache.put, Cache.find, List.find?_append, find?_filter_same]
  by_cases h : sameResource v u = true
  · have h2 : sameResource u v = true := by rw [sameResource_symm]; exact h
    simp [h, h2, List.find?_cons]
  · have h2 : sameResource u v = false := by
      rw [sameResource_symm]; simpa using h
    have h3 : sameResource v u = false := by simpa using h
    simp [h3, List.find?_cons, h2]

theorem Cache.find_congr (c : Cache) (u v : String) (h : sameResource u v = true) :
    c.find u = c.find v := by
  have : (fun e : String × Response => sameResource e.1 u) =
      (fun e : String × Response => sameResource e.1 v) := by
    funext e
    exact sameResource_congr_right u v e.1 h
  simp only [Cache.find, this]

theorem Cache.find_isSome_of_mem_keys (c : Cache) (u : String) (h : u ∈ c.keys) :
    ∃ r, c.find u = some r := by
  simp only [Cache.keys, List.mem_map] at h
  obtain ⟨e, he, heu⟩ := h
  have hs : (c.entries.find? (fun e => sameResource e.1 u)).isSome = true := by
    rw [List.find?_isSome]
    exact ⟨e, he, by rw [heu]; exact sameResource_refl u⟩
  obtain ⟨x, hx⟩ := Option.isSome_iff_exists.mp hs
  exact ⟨x.2, by simp [Cache.find, hx]⟩

/-- A response found for a request is stored under a request that matches it. -/
theorem Cache.exists_key_of_find (c : Cache) (v : String) (r : Response)
    (h : c.find v = some r) : ∃ u, (u, r) ∈ c.entries ∧ sameResource u v = true := by
  have hm : ∀ o : Option (String × Response),
      o.map Prod.snd = some r ↔ ∃ a, o = some a ∧ a.2 = r := by
    intro o; cases o <;> simp
  simp only [Cache.find, hm] at h
  obtain ⟨e, he, her⟩ := h
  refine ⟨e.1, ?_, ?_⟩
  · rw [← her]
    exact List.mem_of_find?_eq_some he
  · exact List.find?_some (p := fun e : String × Response => sameResource e.1 v) he

theorem Cache.find_eq_none_iff (c : Cache) (v : String) :
    c.find v = none ↔ ∀ u ∈ c.keys, sameResource u v = false := by
  have hm : ∀ o : Option (String × Response), o.map Prod.snd = none ↔ o = none := by
    intro o; cases o <;> simp
  simp only [Cache.find, hm, List.find?_eq_none, Cache.keys, List.mem_map]
  constructor
  · rintro h u ⟨e, he, rfl⟩
    simpa using h e he
  · intro h e he
    simpa using h e.1 ⟨e, he, rfl⟩

/-- Two stored requests that match each other are the same entry. -/
theorem Cache.entry_unique (c : Cache) (e1 e2 : String × Response) (h1 : e1 ∈ c.entries)
    (h2 : e2 ∈ c.entries) (hs : sameResource e1.1 e2.1 = true) : e1 = e2 := by
  by_contra hne
  have hsymm : Symmetric (fun a b : String × Response => sameResource a.1 b.1 = false) := by
    intro a b hab
    rw [sameResource_symm]
    exact hab
  have := c.distinct.forall hsymm h1 h2 hne
  rw [hs] at this
  cases this

/-- The response stored under a request is the one found for it. -/
theorem Cache.find_of_mem (c : Cache) (u : String) (r : Response) (h : (u, r) ∈ c.entries) :
    c.find u = some r := by
  obtain ⟨x, hx⟩ := c.find_isSome_of_mem_keys u (List.mem_map.mpr ⟨(u, r), h, rfl⟩)
  obtain ⟨k, hk, hku⟩ := c.exists_key_of_find u x hx
  have := c.entry_unique (k, x) (u, r) hk h hku
  rw [hx]
  simp only [Prod.mk.injEq] at this
  rw [this.2]

theorem Cache.mem_keys_of_find (c : Cache) (v : String) (r : Response) (h : c.find v = some r) :
    ∃ u ∈ c.keys, sameResource u v = true := by
  obtain ⟨u, hu, hs⟩ := c.exists_key_of_find v r h
  exact ⟨u, List.mem_map.mpr ⟨(u, r), hu, rfl⟩, hs⟩

theorem find_copyInto (t : Cache) (ks : List String) (hks : ∀ u ∈ ks, u ∈ t.keys) (c : Cache)
    (v : String) :
    (copyInto t ks c).find v =
      if ks.any (fun k => sameResource k v) = true then t.find v else c.find v := by
  induction ks generalizing c with
  | nil => simp [copyInto]
  | cons u us ih =>
    obtain ⟨r, hr⟩ := t.find_isSome_of_mem_keys u (hks u (by simp))
    have hus : ∀ x ∈ us, x ∈ t.keys := fun x hx => hks x (by simp [hx])
    simp only [copyInto, hr]
    rw [ih hus]
    by_cases hv : us.any (fun k => sameResource k v) = true
    · simp [hv]
    · have hv2 : us.any (fun k => sameResource k v) = false := by simpa using hv
      by_cases hvu : sameResource u v = true
      · have hvu2 : sameResource v u = true := by rw [sameResource_symm]; exact hvu
        rw [List.any_cons, hvu, Bool.true_or, if_pos rfl, if_neg hv, Cache.find_put,
          if_pos hvu2, ← Cache.find_congr t u v hvu, hr]
      · have hvu1 : sameResource u v = false := by simpa using hvu
        have hvu2 : ¬ sameResource v u = true := by rw [sameResource_symm]; exact hvu
        rw [List.any_cons, hvu1, Bool.false_or, if_neg hv, if_neg hv, Cache.find_put,
          if_neg hvu2]

theorem find_pruneLoop (host : Host) (old : JSObject) (ks : List String) (c : Cache)
    (v : String) :
    (pruneLoop host old ks c).find v =
      if ks.any (fun u => stale host old (cacheKey host.origin u) && sameResource u v) = true
      then none else c.find v := by
  induction ks generalizing c with
  | nil => simp [pruneLoop]
  | cons u us ih =>
    simp only [pruneLoop, List.any_cons]
    by_cases hs : stale host old (cacheKey host.origin u) = true
    · simp only [hs, if_true, Bool.true_and]
      rw [ih, Cache.find_remove, sameResource_symm v u]
      by_cases h1 : us.any (fun u => stale host old (cacheKey host.origin u) &&
          sameResource u v) = true
      · simp [h1]
      · by_cases h2 : sameResource u v = true
        · simp [h1, h2]
        · simp [h1, h2]
    · have hs2 : stale host old (cacheKey host.origin u) = false := by simpa using hs
      simp only [hs2, Bool.false_and, Bool.false_or]
      rw [if_neg (by simp), ih]

/-- Copying a cache into the empty cache gives the cache back. -/
theorem copyInto_append (t : Cache) (suf pre : List (String × Response)) (c : Cache)
    (ht : t.entries = pre ++ suf) (hc : c.entries = pre) :
    (copyInto t (suf.map Prod.fst) c).entries = pre ++ suf := by
  induction suf generalizing pre c with
  | nil => simp [copyInto, hc]
  | cons e rest ih =>
    obtain ⟨u, r⟩ := e
    have hmem : (u, r) ∈ t.entries := by rw [ht]; simp
    have hfind := t.find_of_mem u r hmem
    have hpre : ∀ a ∈ pre, sameResource a.1 u = false := by
      have hd := t.distinct
      rw [ht, List.pairwise_append] at hd
      intro a ha
      exact hd.2.2 a ha (u, r) (by simp)
    have hput : (c.put u r).entries = pre ++ [(u, r)] := by
      simp only [Cache.put, hc]
      congr 1
      rw [List.filter_eq_self]
      intro a ha
      simp [hpre a ha]
    simp only [List.map_cons, copyInto, hfind]
    rw [ih (pre ++ [(u, r)]) (c.put u r) (by rw [ht]; simp) hput]
    simp

theorem copyInto_self (t : Cache) : copyInto t t.keys Cache.empty = t := by
  apply Cache.ext
  have := copyInto_append t t.entries [] Cache.empty (by simp) rfl
  simpa [Cache.keys] using this

/-! ## Running tasks when no storage operation raises -/

theorem bind_apply {α β : Type} (t : Async α) (f : α → Async β) (w : World) :
    (t >>= f) w = Async.bind t f w := rfl

theorem bind_ok {α β : Type} (t : Async α) (f : α → Async β) (w w1 : World) (a : α)
    (h : t w = .ok a w1) : Async.bind t f w = f a w1 := by
  simp [Async.bind, h]

theorem bind_threw {α β : Type} (t : Async α) (f : α → Async β) (w w1 : World) (err : JSError)
    (h : t w = .threw err w1) : Async.bind t f w = .threw err w1 := by
  simp [Async.bind, h]

theorem step_noFault {α : Type} (e : Effect) (f : CacheStorage → α × CacheStorage) (w : World) :
    step noFault e f w = .ok (f w.caches).1 ⟨(f w.caches).2, w.trace ++ [e]⟩ := rfl

/-- The copy loop, run on a state where both regions exist. -/
theorem forEach_copy_run (t : Cache) (ks : List String) (hks : ∀ u ∈ ks, u ∈ t.keys)
    (c : Cache) (m : Option Cache) (tr : List Effect) :
    ∃ tr1, forEach ks (fun request => do
        let response ← cacheMatch noFault .temp request
        cachePut noFault .content request response) ⟨⟨some c, some t, m⟩, tr⟩
      = .ok () ⟨⟨some (copyInto t ks c), some t, m⟩, tr1⟩ := by
  induction ks generalizing c tr with
  | nil => exact ⟨tr, rfl⟩
  | cons u us ih =>
    obtain ⟨r, hr⟩ := t.find_isSome_of_mem_keys u (hks u (by simp))
    have hus : ∀ x ∈ us, x ∈ t.keys := fun x hx => hks x (by simp [hx])
    obtain ⟨tr1, h1⟩ := ih hus (c.put u r)
      (tr ++ [.cacheMatch .temp u] ++ [.cachePut .content u])
    refine ⟨tr1, ?_⟩
    simp only [forEach, copyInto, hr]
    rw [bind_ok _ _ _ ⟨⟨some (c.put u r), some t, m⟩,
      tr ++ [.cacheMatch .temp u] ++ [.cachePut .content u]⟩ ()]
    · exact h1
    · simp [bind_apply, Async.bind, cacheMatch, cachePut, step_noFault, CacheStorage.cache,
        CacheStorage.region, CacheStorage.set, hr]

/-- The prune loop, run on a state where the content region exists. -/
theorem forEach_prune_run (host : Host) (old : JSObject) (ks : List String)
    (c : Cache) (t m : Option Cache) (tr : List Effect) :
    ∃ tr1, forEach ks (fun request =>
        if stale host old (cacheKey host.origin request) then
          cacheDelete noFault .content request
        else Async.pure ()) ⟨⟨some c, t, m⟩, tr⟩
      = .ok () ⟨⟨some (pruneLoop host old ks c), t, m⟩, tr1⟩ := by
  induction ks generalizing c tr with
  | nil => exact ⟨tr, rfl⟩
  | cons u us ih =>
    by_cases hs : stale host old (cacheKey host.origin u) = true
    · obtain ⟨tr1, h1⟩ := ih (c.remove u) (tr ++ [.cacheDelete .content u])
      refine ⟨tr1, ?_⟩
      simp only [forEach, pruneLoop, hs, if_true]
      rw [bind_ok _ _ _ ⟨⟨some (c.remove u), t, m⟩, tr ++ [.cacheDelete .content u]⟩ ()]
      · exact h1
      · simp [cacheDelete, step_noFault, CacheStorage.cache, CacheStorage.region,
          CacheStorage.set]
    · have hs2 : stale host old (cacheKey host.origin u) = false := by simpa using hs
      obtain ⟨tr1, h1⟩ := ih c tr
      refine ⟨tr1, ?_⟩
      simp only [forEach, pruneLoop, hs2]
      rw [bind_ok _ _ _ ⟨⟨some c, t, m⟩, tr⟩ ()]
      · simpa using h1
      · simp [Async.pure]

/-- The `copyTemp` task, run on a state where both regions exist. -/
theorem copyTemp_run (t c : Cache) (m : Option Cache) (tr : List Effect) :
    ∃ tr1, copyTemp noFault ⟨⟨some c, some t, m⟩, tr⟩
      = .ok () ⟨⟨some (copyInto t t.keys c), some t, m⟩, tr1⟩ := by
  obtain ⟨tr1, h1⟩ := forEach_copy_run t t.keys (fun _ h => h) c m (tr ++ [.cacheKeys .temp])
  refine ⟨tr1, ?_⟩
  simp only [copyTemp, bind_apply]
  rw [bind_ok _ _ _ ⟨⟨some c, some t, m⟩, tr ++ [.cacheKeys .temp]⟩ t.keys]
  · exact h1
  · simp [cacheKeys, step_noFault, CacheStorage.cache, CacheStorage.region]

/-- Path A, run to its end: the storage it leaves. -/
theorem activateBody_pathA (host : Host) (w : World)
    (h : (w.caches.cache .manifest).find "manifest" = none) :
    ∃ tr1, activateBody host noFault w = .ok () ⟨⟨
      some (copyInto (w.caches.cache .temp) (w.caches.cache .temp).keys Cache.empty),
      none,
      some ((w.caches.cache .manifest).put "manifest" manifestRecord)⟩, tr1⟩ := by
  obtain ⟨⟨c, t, m⟩, tr⟩ := w
  simp only [CacheStorage.cache, CacheStorage.region] at h ⊢
  obtain ⟨tr1, h1⟩ := copyTemp_run (t.getD Cache.empty) Cache.empty
    (some (m.getD Cache.empty))
    (tr ++ [.cachesOpen .content, .cachesOpen .temp, .cachesOpen .manifest,
      .cacheMatch .manifest "manifest", .cachesDelete .content, .cachesOpen .content])
  refine ⟨tr1 ++ [.cachesDelete .temp, .cachePut .manifest "manifest", .clientsClaim], ?_⟩
  simp [activateBody, bind_apply, Async.bind, cachesOpen, cachesDelete, cacheMatch, cachePut,
    clientsClaim, step_noFault, CacheStorage.cache, CacheStorage.region, CacheStorage.set, h, h1]

/-- Path B, run to its end: the storage it leaves. -/
theorem activateBody_pathB (host : Host) (w : World) (old : JSObject) (flag : Bool)
    (h : (w.caches.cache .manifest).find "manifest" = some ⟨.manifest old, flag⟩) :
    ∃ tr1, activateBody host noFault w = .ok () ⟨⟨
      some (copyInto (w.caches.cache .temp) (w.caches.cache .temp).keys
        (pruneLoop host old (w.caches.cache .content).keys (w.caches.cache .content))),
      none,
      some ((w.caches.cache .manifest).put "manifest" manifestRecord)⟩, tr1⟩ := by
  obtain ⟨⟨c, t, m⟩, tr⟩ := w
  simp only [CacheStorage.cache, CacheStorage.region] at h ⊢
  obtain ⟨tr1, h1⟩ := forEach_prune_run host old (c.getD Cache.empty).keys
    (c.getD Cache.empty) (some (t.getD Cache.empty)) (some (m.getD Cache.empty))
    (tr ++ [.cachesOpen .content, .cachesOpen .temp, .cachesOpen .manifest,
      .cacheMatch .manifest "manifest", .readJson, .cacheKeys .content])
  obtain ⟨tr2, h2⟩ := copyTemp_run (t.getD Cache.empty)
    (pruneLoop host old (c.getD Cache.empty).keys (c.getD Cache.empty))
    (some (m.getD Cache.empty)) tr1
  refine ⟨tr2 ++ [.cachesDelete .temp, .cachePut .manifest "manifest", .clientsClaim], ?_⟩
  simp [activateBody, bind_apply, Async.bind, cachesOpen, cachesDelete, cacheMatch, cachePut,
    cacheKeys, readJson, clientsClaim, step_noFault, CacheStorage.cache, CacheStorage.region,
    CacheStorage.set, h, h1, h2]

/-- What Path B leaves for each request URL in the content cache: the staged response when a
staged request matches it, nothing when a stored request that matches it was pruned, what
was found before otherwise. -/
theorem activate_pathB_find (host : Host) (w : World) (old : JSObject) (flag : Bool)
    (h : (w.caches.cache .manifest).find "manifest" = some ⟨.manifest old, flag⟩) :
    ∃ w1, activate host noFault w = .ok () w1 ∧
      w1.caches.temp = none ∧
      (w1.caches.cache .manifest).find "manifest" = some manifestRecord ∧
      ∀ v, (w1.caches.cache .content).find v =
        if ((w.caches.cache .temp).find v).isSome = true then (w.caches.cache .temp).find v
        else if (w.caches.cache .content).keys.any (fun u =>
          stale host old (cacheKey host.origin u) && sameResource u v) = true then none
        else (w.caches.cache .content).find v := by
  obtain ⟨tr1, h1⟩ := activateBody_pathB host w old flag h
  have h2 : activate host noFault w = .ok () ⟨⟨
      some (copyInto (w.caches.cache .temp) (w.caches.cache .temp).keys
        (pruneLoop host old (w.caches.cache .content).keys (w.caches.cache .content))),
      none,
      some ((w.caches.cache .manifest).put "manifest" manifestRecord)⟩, tr1⟩ := by
    simp only [activate, tryCatch, h1]
  refine ⟨_, h2, rfl, ?_, ?_⟩
  · simp [CacheStorage.cache, CacheStorage.region, Cache.find_put, sameResource_refl]
  · intro v
    simp only [CacheStorage.cache, CacheStorage.region, Option.getD_some]
    rw [find_copyInto _ _ (fun _ hu => hu), find_pruneLoop]
    cases hf : (w.caches.temp.getD Cache.empty).find v with
    | some r =>
      obtain ⟨u, hu, hs⟩ := Cache.mem_keys_of_find _ _ _ hf
      have hany : (w.caches.temp.getD Cache.empty).keys.any (fun k => sameResource k v) = true :=
        List.any_eq_true.mpr ⟨u, hu, hs⟩
      simp [hany]
    | none =>
      have hany : (w.caches.temp.getD Cache.empty).keys.any (fun k => sameResource k v) =
          false := by
        rw [Bool.eq_false_iff]
        intro ht
        obtain ⟨u, hu, hs⟩ := List.any_eq_true.mp ht
        have := (Cache.find_eq_none_iff _ _).mp hf u hu
        rw [hs] at this
        cases this
      simp [hany]

/-- Among the stored requests only an entry itself matches it: the prune loop removes what
is found for the request of an entry exactly when the key of that entry is stale. -/
theorem any_stale_of_mem (host : Host) (old : JSObject) (c : Cache) (u : String)
    (r : Response) (hu : (u, r) ∈ c.entries) :
    c.keys.any (fun k => stale host old (cacheKey host.origin k) && sameResource k u) =
      stale host old (cacheKey host.origin u) := by
  rw [Bool.eq_iff_iff, List.any_eq_true]
  constructor
  · rintro ⟨k, hk1, hk2⟩
    simp only [Bool.and_eq_true] at hk2
    obtain ⟨x, hx⟩ := List.mem_map.mp hk1
    have hxu := Cache.entry_unique _ x (u, r) hx.1 hu (by rw [hx.2]; exact hk2.2)
    have hku : k = u := by rw [← hx.2, hxu]
    rw [← hku]
    exact hk2.1
  · intro hs
    exact ⟨u, List.mem_map.mpr ⟨(u, r), hu, rfl⟩, by simp [hs, sameResource_refl]⟩


/-! ## Activation -/

/-- C1: at a concrete upgrade the prune loop keeps a durable entry that is not staged and
whose key, `toString`, is not a key of `RESOURCES`: the read `RESOURCES[key]` finds the
function inherited from `Object.prototype`, which is truthy and equal to `oldManifest[key]`. -/
theorem prune_keeps_inherited_key :
    ∃ w1, activate exampleHost noFault upgradeWorld = .ok () w1 ∧
      (w1.caches.cache .content).find "https://app.example/toString" = some ⟨.text "t", true⟩ ∧
      "https://app.example/toString" ∉ (upgradeWorld.caches.cache .temp).keys ∧
      cacheKey exampleHost.origin "https://app.example/toString" = "toString" ∧
      RESOURCES.lookup "toString" = none := by
  obtain ⟨w1, h1, _, _, h4⟩ := activate_pathB_find exampleHost upgradeWorld
    [("main.dart.js", "m0"), ("old.js", "x")] true (by decide)
  refine ⟨w1, h1, ?_, by decide, by decide, by decide⟩
  rw [h4]
  decide

/-- C2: when activation runs with a readable prior record and no operation raises, it ends
normally and every request staged before activation is then in the content cache with exactly
its staged response. -/
theorem staged_copy_wins (host : Host) (w : World) (old : JSObject) (flag : Bool)
    (h : (w.caches.cache .manifest).find "manifest" = some ⟨.manifest old, flag⟩) :
    ∃ w1, activate host noFault w = .ok () w1 ∧
      ∀ u r, (w.caches.cache .temp).find u = some r →
        (w1.caches.cache .content).find u = some r := by
  obtain ⟨w1, h1, _, _, h4⟩ := activate_pathB_find host w old flag h
  refine ⟨w1, h1, ?_⟩
  intro u r hu
  rw [h4, hu]
  rfl

theorem staged_copy_wins_witness :
    (upgradeWorld.caches.cache .manifest).find "manifest" =
        some ⟨.manifest [("main.dart.js", "m0"), ("old.js", "x")], true⟩ ∧
      ∃ w1, activate exampleHost noFault upgradeWorld = .ok () w1 ∧
        ∀ u r, (upgradeWorld.caches.cache .temp).find u = some r →
          (w1.caches.cache .content).find u = some r :=
  ⟨by decide, staged_copy_wins exampleHost upgradeWorld
    [("main.dart.js", "m0"), ("old.js", "x")] true (by decide)⟩

/-- C3: when the manifest region holds no `manifest` entry and no operation raises,
activation ends normally; the content cache then holds exactly the staged entries (the same
request set, each with its staged response, whatever it held before) and the record is the
serialised `RESOURCES`. -/
theorem no_baseline_reset (host : Host) (w : World)
    (h : (w.caches.cache .manifest).find "manifest" = none) :
    ∃ w1, activate host noFault w = .ok () w1 ∧
      (∀ u, (w1.caches.cache .content).find u = (w.caches.cache .temp).find u) ∧
      (∀ u, u ∈ (w1.caches.cache .content).keys ↔ u ∈ (w.caches.cache .temp).keys) ∧
      (w1.caches.cache .manifest).find "manifest" = some ⟨.manifest RESOURCES, true⟩ := by
  obtain ⟨tr1, h1⟩ := activateBody_pathA host w h
  have h2 : activate host noFault w = .ok () ⟨⟨
      some (copyInto (w.caches.cache .temp) (w.caches.cache .temp).keys Cache.empty),
      none,
      some ((w.caches.cache .manifest).put "manifest" manifestRecord)⟩, tr1⟩ := by
    simp only [activate, tryCatch, h1]
  rw [copyInto_self] at h2
  refine ⟨_, h2, ?_, ?_, ?_⟩
  · intro u
    simp [CacheStorage.cache, CacheStorage.region]
  · intro u
    simp [CacheStorage.cache, CacheStorage.region]
  · simp [CacheStorage.cache, CacheStorage.region, Cache.find_put, manifestRecord,
      sameResource_refl]

theorem no_baseline_reset_witness :
    (firstLaunchWorld.caches.cache .manifest).find "manifest" = none ∧
      ∃ w1, activate exampleHost noFault firstLaunchWorld = .ok () w1 ∧
        (∀ u, (w1.caches.cache .content).find u =
          (firstLaunchWorld.caches.cache .temp).find u) ∧
        (∀ u, u ∈ (w1.caches.cache .content).keys ↔
          u ∈ (firstLaunchWorld.caches.cache .temp).keys) ∧
        (w1.caches.cache .manifest).find "manifest" = some ⟨.manifest RESOURCES, true⟩ :=
  ⟨by decide, no_baseline_reset exampleHost firstLaunchWorld (by decide)⟩

/-- C4: at a concrete upgrade whose staging region holds exactly the `CORE` requests, the
content cache still holds, after activation, an entry whose key `valueOf` is not a key of
`RESOURCES`. -/
theorem stale_inherited_key_survives :
    (coreStagedWorld.caches.cache .temp).keys = CORE.map (fun key => "https://app.example/" ++ key) ∧
    ∃ w1, activate exampleHost noFault coreStagedWorld = .ok () w1 ∧
      "https://app.example/valueOf" ∈ (w1.caches.cache .content).keys ∧
      cacheKey exampleHost.origin "https://app.example/valueOf" = "valueOf" ∧
      RESOURCES.lookup "valueOf" = none := by
  refine ⟨by decide, ?_⟩
  obtain ⟨tr1, h1⟩ := activateBody_pathB exampleHost coreStagedWorld
    [("main.dart.js", "m0"), ("old.js", "x")] true (by decide)
  have h2 : activate exampleHost noFault coreStagedWorld = .ok () ⟨⟨
      some (copyInto (coreStagedWorld.caches.cache .temp)
        (coreStagedWorld.caches.cache .temp).keys
        (pruneLoop exampleHost [("main.dart.js", "m0"), ("old.js", "x")]
          (coreStagedWorld.caches.cache .content).keys
          (coreStagedWorld.caches.cache .content))),
      none,
      some ((coreStagedWorld.caches.cache .manifest).put "manifest" manifestRecord)⟩, tr1⟩ := by
    simp only [activate, tryCatch, h1]
  refine ⟨_, h2, ?_, by decide, by decide⟩
  show "https://app.example/valueOf" ∈ (copyInto (coreStagedWorld.caches.cache .temp)
    (coreStagedWorld.caches.cache .temp).keys
    (pruneLoop exampleHost [("main.dart.js", "m0"), ("old.js", "x")]
      (coreStagedWorld.caches.cache .content).keys
      (coreStagedWorld.caches.cache .content))).keys
  decide

/-- C5, as stated, fails: at a concrete upgrade a `put` of the `try` block raises, the first
deletion of the `catch` block raises too, and activation ends by raising that error with the
content, staging and manifest regions all still there. -/
theorem teardown_can_raise :
    activateBody exampleHost putAndDeleteFail upgradeWorld =
      .threw (.storage (.cachePut .content "https://app.example/main.dart.js"))
        putFailedWorld ∧
    activate exampleHost putAndDeleteFail upgradeWorld =
      .threw (.storage (.cachesDelete .content)) stuckWorld ∧
    stuckWorld.caches.content ≠ none ∧ stuckWorld.caches.temp ≠ none ∧
    stuckWorld.caches.manifest ≠ none := by
  refine ⟨by decide, by decide, by decide, by decide, by decide⟩

/-- C5, amended: whatever operation of the `try` block raises, and whatever the state before,
when the three deletions of the `catch` block do not raise in their turn, activation ends
normally (the error is not raised again) with the content, staging and manifest regions all
deleted. -/
theorem activation_failure_teardown (host : Host) (fails : Faults) (w w1 : World)
    (err : JSError) (hbody : activateBody host fails w = .threw err w1)
    (hdel : teardownRuns fails w1 = true) :
    ∃ w2, activate host fails w = .ok () w2 ∧ w2.caches = ⟨none, none, none⟩ := by
  simp only [teardownRuns, Bool.and_eq_true, Bool.not_eq_eq_eq_not, Bool.not_true] at hdel
  obtain ⟨⟨hd1, hd2⟩, hd3⟩ := hdel
  refine ⟨⟨⟨none, none, none⟩, w1.trace ++ [.cachesDelete .content, .cachesDelete .temp,
    .cachesDelete .manifest]⟩, ?_, rfl⟩
  simp [activate, tryCatch, hbody, bind_apply, Async.bind, cachesDelete, step, hd1, hd2, hd3,
    CacheStorage.set]

theorem activation_failure_teardown_witness :
    (activateBody exampleHost contentDeleteFailsOnce firstLaunchWorld =
        .threw (.storage (.cachesDelete .content)) deleteFailedWorld ∧
      teardownRuns contentDeleteFailsOnce deleteFailedWorld = true) ∧
      ∃ w2, activate exampleHost contentDeleteFailsOnce firstLaunchWorld = .ok () w2 ∧
        w2.caches = ⟨none, none, none⟩ :=
  ⟨⟨by decide, by decide⟩,
    activation_failure_teardown exampleHost contentDeleteFailsOnce firstLaunchWorld
      deleteFailedWorld (.storage (.cachesDelete .content)) (by decide) (by decide)⟩


/-! ## The fetch listener -/

/-- C6: a `GET` request for the path `constructor`, whose derived key is not a key of
`RESOURCES`, is intercepted all the same: the listener calls `respondWith`, reads the cache,
fetches from the network and stores the response. -/
theorem fetch_intercepts_inherited_key :
    fetchKey exampleHost.origin "https://app.example/constructor" = "constructor" ∧
    RESOURCES.lookup "constructor" = none ∧
    onFetch exampleHost exampleNet noFault ⟨"GET", "https://app.example/constructor"⟩ emptyWorld =
      (.responded ⟨.text "page", true⟩,
        ⟨⟨some ⟨[("https://app.example/constructor", ⟨.text "page", true⟩)], by decide⟩,
          none, none⟩,
         [.cachesOpen .content, .cacheMatch .content "https://app.example/constructor",
          .fetch "https://app.example/constructor",
          .cachePut .content "https://app.example/constructor"]⟩) := by
  refine ⟨by decide, by decide, by decide⟩

theorem occursIn_eq_firstIndex (sep l : List Char) :
    occursIn sep l = (firstIndex sep l).isSome := by
  induction l with
  | nil => cases sep <;> simp [occursIn, firstIndex]
  | cons c cs ih =>
    simp only [occursIn, firstIndex]
    by_cases h : sep.isPrefixOf (c :: cs) = true
    · simp [h]
    · have h2 : sep.isPrefixOf (c :: cs) = false := Bool.eq_false_iff.mpr h
      simp only [h2, Bool.false_or, ih]
      cases firstIndex sep cs <;> simp

theorem beforeFirst_eq_take (sep l : List Char) :
    beforeFirst sep l = match firstIndex sep l with
      | some i => l.take i
      | none => l := by
  induction l with
  | nil => cases sep <;> simp [beforeFirst, firstIndex]
  | cons c cs ih =>
    simp only [beforeFirst, firstIndex]
    by_cases h : sep.isPrefixOf (c :: cs) = true
    · simp [h]
    · have h2 : sep.isPrefixOf (c :: cs) = false := Bool.eq_false_iff.mpr h
      simp only [h2, ih]
      cases firstIndex sep cs <;> simp

/-- C7, as stated, fails: the address `https://app.examples/` begins with the origin
`https://app.example`, it is not the bare origin, it does not begin with the origin followed
by `/#`, and its stripped candidate `s/` is not empty; yet the key the `fetch` listener
derives is the sentinel `"/"`, not that candidate. -/
theorem fetchKey_beyond_origin :
    startsWith "https://app.examples/" "https://app.example" = true ∧
    "https://app.examples/" ≠ "https://app.example" ∧
    startsWith "https://app.examples/" ("https://app.example" ++ "/#") = false ∧
    specCandidate "https://app.example" "https://app.examples/" = "s/" ∧
    specFetchKey "https://app.example" "https://app.examples/" = "s/" ∧
    fetchKey "https://app.example" "https://app.examples/" = "/" := by
  refine ⟨by decide, by decide, by decide, by decide, by decide, by decide⟩

/-- C7, amended: for an address that is the bare origin or begins with the origin followed by
`/`, the key the `fetch` listener derives is the key of the specification: `"/"` when the address is
the bare origin, begins with the origin followed by `/#`, or has an empty stripped and
truncated candidate, and that candidate in every other case. -/
theorem fetchKey_sentinel_normalisation (origin url : String)
    (h : url = origin ∨ startsWith url (origin ++ "/") = true) :
    fetchKey origin url = specFetchKey origin url := by
  rcases h with h | h
  · subst h
    simp [fetchKey, specFetchKey]
  · have hp : (origin.data ++ ['/']) <+: url.data := by
      have := h
      simp only [startsWith, String.data_append] at this
      exact List.isPrefixOf_iff_prefix.mp this
    obtain ⟨tail, ht⟩ := hp
    have hsub : substring url (origin.length + 1) = ⟨tail⟩ := by
      simp only [substring, String.length]
      rw [← ht]
      congr 1
      have : (origin.data ++ ['/']).length = origin.data.length + 1 := by simp
      rw [← this, List.drop_left]
    have horig : origin.data.isPrefixOf url.data = true := by
      rw [ List.isPrefixOf_iff_prefix]
      exact ⟨'/' :: tail, by rw [← ht]; simp⟩
    have hstrip : stripLeading ['/'] (stripLeading origin.data url.data) = tail := by
      have h1 : stripLeading origin.data url.data = '/' :: tail := by
        simp only [stripLeading, horig, if_true]
        rw [← ht, List.append_assoc, List.drop_left]
        rfl
      rw [h1]
      simp [stripLeading]
    have hcand : (if indexOfFound (substring url (origin.length + 1)) "?v=" = true
          then splitFirst (substring url (origin.length + 1)) "?v="
          else substring url (origin.length + 1)) = specCandidate origin url := by
      simp only [specCandidate, hstrip, hsub, indexOfFound, splitFirst, occursIn_eq_firstIndex,
        beforeFirst_eq_take]
      cases firstIndex "?v=".data tail <;> simp
    simp only [fetchKey, specFetchKey, hcand]
    by_cases h1 : url = origin
    · simp [h1]
    · by_cases h2 : startsWith url (origin ++ "/#") = true
      · simp [h2]
      · by_cases h3 : specCandidate origin url = ""
        · simp [h3]
        · simp [h1, h2, h3]

theorem fetchKey_sentinel_normalisation_witness :
    ("https://app.example/main.dart.js?v=7" = "https://app.example" ∨
        startsWith "https://app.example/main.dart.js?v=7" ("https://app.example" ++ "/") = true) ∧
      fetchKey "https://app.example" "https://app.example/main.dart.js?v=7" =
        specFetchKey "https://app.example" "https://app.example/main.dart.js?v=7" :=
  ⟨by decide, fetchKey_sentinel_normalisation "https://app.example"
    "https://app.example/main.dart.js?v=7" (by decide)⟩

theorem RESOURCES_values_nonempty : ∀ p ∈ RESOURCES, p.2 ≠ "" := by decide

theorem mem_of_lookup_eq_some (l : List (String × String)) (k v : String)
    (h : l.lookup k = some v) : (k, v) ∈ l := by
  induction l with
  | nil => simp at h
  | cons e l ih =>
    obtain ⟨a, b⟩ := e
    by_cases hk : k = a
    · subst hk
      simp only [List.lookup_cons, beq_self_eq_true] at h
      simp [Option.some.inj h]
    · have hb : (k == a) = false := by simpa using hk
      simp only [List.lookup_cons, hb] at h
      simp [ih h]

/-- A manifest key reads as a truthy value. -/
theorem truthy_of_isManifestKey (key : String) (h : isManifestKey key = true) :
    (RESOURCES.get key).truthy = true := by
  simp only [isManifestKey, Option.isSome_iff_exists] at h
  obtain ⟨v, hv⟩ := h
  have hne := RESOURCES_values_nonempty _ (mem_of_lookup_eq_some _ _ _ hv)
  simp only [JSObject.get, hv, JSValue.truthy]
  simpa using hne

theorem cache_set_content (s : CacheStorage) (c : Cache) :
    (s.set .content (some c)).cache .content = c := by
  simp [CacheStorage.set, CacheStorage.cache, CacheStorage.region]

theorem set_set_content (s : CacheStorage) (a b : Option Cache) :
    (s.set .content a).set .content b = s.set .content b := by
  simp [CacheStorage.set]

theorem cache_open_content (s : CacheStorage) :
    (s.set .content (some (s.cache .content))).cache .content = s.cache .content :=
  cache_set_content s _

/-- C8: for a `GET` request whose derived key is a manifest key other than `"/"`, with no
matching entry in the content cache and a network that answers, the listener responds with
the network response; afterwards the content cache maps the request to that response if and
only if the response is ok, every request that does not match it is mapped as before, and on
a response that is not ok the cache is unchanged. -/
theorem cache_first_miss (host : Host) (net : String → Except String Response)
    (request : Request) (w : World) (resp : Response)
    (hget : request.method = "GET")
    (hkey : isManifestKey (fetchKey host.origin request.url) = true)
    (hroot : fetchKey host.origin request.url ≠ "/")
    (hmiss : (w.caches.cache .content).find request.url = none)
    (hnet : net request.url = .ok resp) :
    ∃ w1, onFetch host net noFault request w = (.responded resp, w1) ∧
      ((w1.caches.cache .content).find request.url = some resp ↔ resp.ok = true) ∧
      (∀ v, sameResource v request.url = false →
        (w1.caches.cache .content).find v = (w.caches.cache .content).find v) ∧
      (resp.ok = false → w1.caches.cache .content = w.caches.cache .content) := by
  have htruthy := truthy_of_isManifestKey _ hkey
  have hroot2 : (fetchKey host.origin request.url == "/") = false := by simpa using hroot
  cases hok : resp.ok with
  | true =>
    refine ⟨⟨w.caches.set .content (some ((w.caches.cache .content).put request.url resp)),
      w.trace ++ [.cachesOpen .content, .cacheMatch .content request.url, .fetch request.url,
        .cachePut .content request.url]⟩, ?_, ?_, ?_, ?_⟩
    · simp [onFetch, hget, htruthy, hroot2, respond, cacheFirst, bind_apply, Async.bind,
        cachesOpen, cacheMatch, cachePut, detached, fetchNet, Async.pure, step_noFault,
        cache_set_content, set_set_content, hmiss, hnet, hok]
    · simp [cache_set_content, Cache.find_put, sameResource_refl]
    · intro v hv
      simp [cache_set_content, Cache.find_put, hv]
    · intro h; cases h
  | false =>
    refine ⟨⟨w.caches.set .content (some (w.caches.cache .content)),
      w.trace ++ [.cachesOpen .content, .cacheMatch .content request.url,
        .fetch request.url]⟩, ?_, ?_, ?_, ?_⟩
    · simp [onFetch, hget, htruthy, hroot2, respond, cacheFirst, bind_apply, Async.bind,
        cachesOpen, cacheMatch, fetchNet, Async.pure, step_noFault,
        cache_open_content, hmiss, hnet, hok, pure]
    · rw [cache_open_content, hmiss]; simp
    · intro v _; rw [cache_open_content]
    · intro _; rw [cache_open_content]

theorem cache_first_miss_witness :
    (("GET" : String) = "GET" ∧
      isManifestKey (fetchKey exampleHost.origin "https://app.example/main.dart.js") = true ∧
      fetchKey exampleHost.origin "https://app.example/main.dart.js" ≠ "/" ∧
      (servingWorld.caches.cache .content).find "https://app.example/main.dart.js" = none ∧
      exampleNet "https://app.example/main.dart.js" = .ok ⟨.text "page", true⟩) ∧
    ∃ w1, onFetch exampleHost exampleNet noFault ⟨"GET", "https://app.example/main.dart.js"⟩
        servingWorld = (.responded ⟨.text "page", true⟩, w1) ∧
      ((w1.caches.cache .content).find "https://app.example/main.dart.js" =
          some ⟨.text "page", true⟩ ↔ (⟨.text "page", true⟩ : Response).ok = true) ∧
      (∀ v, sameResource v "https://app.example/main.dart.js" = false →
        (w1.caches.cache .content).find v = (servingWorld.caches.cache .content).find v) ∧
      ((⟨.text "page", true⟩ : Response).ok = false →
        w1.caches.cache .content = servingWorld.caches.cache .content) :=
  ⟨⟨rfl, by decide, by decide, by decide, rfl⟩,
    cache_first_miss exampleHost exampleNet ⟨"GET", "https://app.example/main.dart.js"⟩
      servingWorld ⟨.text "page", true⟩ rfl (by decide) (by decide) (by decide) rfl⟩

/-- C9: for a `GET` request whose derived key is a manifest key other than `"/"` and that has
an entry in the content cache, the listener responds with the cached response; it performs
the open and the lookup only, no network fetch, and leaves the cache storage as it was. -/
theorem cache_first_hit (host : Host) (net : String → Except String Response)
    (request : Request) (w : World) (cached : Response)
    (hget : request.method = "GET")
    (hkey : isManifestKey (fetchKey host.origin request.url) = true)
    (hroot : fetchKey host.origin request.url ≠ "/")
    (hhit : (w.caches.cache .content).find request.url = some cached) :
    ∃ w1, onFetch host net noFault request w = (.responded cached, w1) ∧
      w1.trace = w.trace ++ [.cachesOpen .content, .cacheMatch .content request.url] ∧
      (∀ u, Effect.fetch u ∉ [Effect.cachesOpen .content, .cacheMatch .content request.url]) ∧
      w1.caches = w.caches := by
  have htruthy := truthy_of_isManifestKey _ hkey
  have hroot2 : (fetchKey host.origin request.url == "/") = false := by simpa using hroot
  have hsome : ∃ c, w.caches.content = some c := by
    cases hc : w.caches.content with
    | none => simp [CacheStorage.cache, CacheStorage.region, hc, Cache.empty, Cache.find] at hhit
    | some c => exact ⟨c, rfl⟩
  obtain ⟨c, hc⟩ := hsome
  have hset : w.caches.set .content (some (w.caches.cache .content)) = w.caches := by
    obtain ⟨⟨c0, t0, m0⟩, tr0⟩ := w
    simp only at hc
    subst hc
    rfl
  refine ⟨⟨w.caches, w.trace ++ [.cachesOpen .content, .cacheMatch .content request.url]⟩,
    ?_, rfl, ?_, rfl⟩
  · simp [onFetch, hget, htruthy, hroot2, respond, cacheFirst, bind_apply, Async.bind,
      cachesOpen, cacheMatch, Async.pure, step_noFault, hset, hhit]
  · intro u; simp

theorem cache_first_hit_witness :
    (("GET" : String) = "GET" ∧
      isManifestKey (fetchKey exampleHost.origin "https://app.example/version.json") = true ∧
      fetchKey exampleHost.origin "https://app.example/version.json" ≠ "/" ∧
      (servingWorld.caches.cache .content).find "https://app.example/version.json" =
        some ⟨.text "v1", true⟩) ∧
    ∃ w1, onFetch exampleHost exampleNet noFault ⟨"GET", "https://app.example/version.json"⟩
        servingWorld = (.responded ⟨.text "v1", true⟩, w1) ∧
      w1.trace = servingWorld.trace ++
        [.cachesOpen .content, .cacheMatch .content "https://app.example/version.json"] ∧
      (∀ u, Effect.fetch u ∉
        [Effect.cachesOpen .content, .cacheMatch .content "https://app.example/version.json"]) ∧
      w1.caches = servingWorld.caches :=
  ⟨⟨rfl, by decide, by decide, by decide⟩,
    cache_first_hit exampleHost exampleNet ⟨"GET", "https://app.example/version.json"⟩
      servingWorld ⟨.text "v1", true⟩ rfl (by decide) (by decide) (by decide)⟩

/-- C10: for a `GET` request whose derived key is the sentinel `"/"`, when the network
answers, the listener responds with that live response, whatever the content cache held for
the request, and afterwards the content cache maps the request to that response. -/
theorem online_first_success (host : Host) (net : String → Except String Response)
    (request : Request) (w : World) (resp : Response)
    (hget : request.method = "GET")
    (hroot : fetchKey host.origin request.url = "/")
    (hnet : net request.url = .ok resp) :
    ∃ w1, onFetch host net noFault request w = (.responded resp, w1) ∧
      (w1.caches.cache .content).find request.url = some resp := by
  have htruthy : (RESOURCES.get "/").truthy = true := by decide
  refine ⟨⟨w.caches.set .content (some ((w.caches.cache .content).put request.url resp)),
    w.trace ++ [.fetch request.url, .cachesOpen .content, .cachePut .content request.url]⟩,
    ?_, ?_⟩
  · simp [onFetch, hget, hroot, htruthy, respond, onlineFirst, tryCatch, bind_apply,
      Async.bind, cachesOpen, cachePut, detached, fetchNet, Async.pure, step_noFault,
      cache_set_content, set_set_content, hnet]
  · simp [CacheStorage.set, CacheStorage.cache, CacheStorage.region, Cache.find_put,
      sameResource_refl]

theorem online_first_success_witness :
    (("GET" : String) = "GET" ∧
      fetchKey exampleHost.origin "https://app.example/" = "/" ∧
      exampleNet "https://app.example/" = .ok ⟨.text "page", true⟩) ∧
    ∃ w1, onFetch exampleHost exampleNet noFault ⟨"GET", "https://app.example/"⟩
        servingWorld = (.responded ⟨.text "page", true⟩, w1) ∧
      (w1.caches.cache .content).find "https://app.example/" = some ⟨.text "page", true⟩ :=
  ⟨⟨rfl, by decide, rfl⟩,
    online_first_success exampleHost exampleNet ⟨"GET", "https://app.example/"⟩
      servingWorld ⟨.text "page", true⟩ rfl (by decide) rfl⟩

/-! ## The extent of the inherited-name reads -/

/-- For a key that is not a property name of `Object.prototype`, the prune test lets an
entry stay exactly when the key is in `RESOURCES` with the fingerprint the old record has. -/
theorem stale_eq_false_iff (host : Host) (old : JSObject) (key : String)
    (hkey : key ∉ objectPrototypeNames) :
    stale host old key = false ↔
      ∃ v, RESOURCES.lookup key = some v ∧ old.lookup key = some v := by
  simp only [stale, JSObject.get, hkey, if_false]
  cases hr : RESOURCES.lookup key with
  | none => simp [JSValue.truthy]
  | some v =>
    have hne := RESOURCES_values_nonempty _ (mem_of_lookup_eq_some _ _ _ hr)
    cases ho : old.lookup key with
    | none => simp [JSValue.truthy, JSValue.looseNe]
    | some x =>
      simp only [JSValue.truthy, JSValue.looseNe]
      have hv : (v != "") = true := by simpa using hne
      rw [hv]
      by_cases hvx : v = x
      · subst hvx
        simp
      · have hb : (v != x) = true := by simpa using hvx
        rw [hb]
        constructor
        · intro hc; cases hc
        · rintro ⟨y, hy1, hy2⟩
          exact absurd ((Option.some.inj hy1).trans (Option.some.inj hy2).symm) hvx

/-- Path B, away from the inherited names: an entry that no staged request matches is in the
content cache after activation exactly when its key is in `RESOURCES` with the fingerprint
of the old record. -/
theorem pathB_keeps_iff_unchanged (host : Host) (w : World) (old : JSObject) (flag : Bool)
    (h : (w.caches.cache .manifest).find "manifest" = some ⟨.manifest old, flag⟩) :
    ∃ w1, activate host noFault w = .ok () w1 ∧
      ∀ u r, (u, r) ∈ (w.caches.cache .content).entries →
        (w.caches.cache .temp).find u = none →
        cacheKey host.origin u ∉ objectPrototypeNames →
        ((w1.caches.cache .content).find u = some r ↔
          ∃ v, RESOURCES.lookup (cacheKey host.origin u) = some v ∧
            old.lookup (cacheKey host.origin u) = some v) := by
  obtain ⟨w1, h1, _, _, h4⟩ := activate_pathB_find host w old flag h
  refine ⟨w1, h1, ?_⟩
  intro u r hu ht hk
  have hfind := Cache.find_of_mem _ u r hu
  rw [h4, ht, ← stale_eq_false_iff host old _ hk, hfind]
  have hany := any_stale_of_mem host old (w.caches.cache .content) u r hu
  rw [hany]
  cases hs : stale host old (cacheKey host.origin u) <;> simp

/-- A `GET` request whose derived key is neither in `RESOURCES` nor a property name of
`Object.prototype` is not intercepted, and nothing is done. -/
theorem onFetch_passThrough (host : Host) (net : String → Except String Response)
    (fails : Faults) (request : Request) (w : World)
    (hkey : RESOURCES.lookup (fetchKey host.origin request.url) = none)
    (hname : fetchKey host.origin request.url ∉ objectPrototypeNames) :
    onFetch host net fails request w = (.passThrough, w) := by
  simp only [onFetch, JSObject.get, hkey, hname, if_false, JSValue.truthy]
  split <;> simp


/-! ## The fetch listener, continued -/

/-- C11: for a `GET` request whose derived key is the sentinel `"/"` and whose network fetch
fails, the listener responds with the cached response when the content cache has one for the
request, and otherwise its promise rejects with exactly the error of the fetch; the cache is
left as it was. -/
theorem online_first_fallback (host : Host) (net : String → Except String Response)
    (request : Request) (w : World) (reason : String)
    (hget : request.method = "GET")
    (hroot : fetchKey host.origin request.url = "/")
    (hnet : net request.url = .error reason) :
    ∃ w1, onFetch host net noFault request w =
        ((match (w.caches.cache .content).find request.url with
          | some cached => Reply.responded cached
          | none => Reply.rejected (.network reason)), w1) ∧
      w1.caches.cache .content = w.caches.cache .content := by
  have htruthy : (RESOURCES.get "/").truthy = true := by decide
  refine ⟨⟨w.caches.set .content (some (w.caches.cache .content)),
    w.trace ++ [.fetch request.url, .cachesOpen .content,
      .cacheMatch .content request.url]⟩, ?_, cache_open_content _⟩
  cases hf : (w.caches.cache .content).find request.url with
  | none =>
    simp [onFetch, hget, hroot, htruthy, respond, onlineFirst, tryCatch, bind_apply,
      Async.bind, cachesOpen, cacheMatch, fetchNet, raise, step_noFault,
      cache_set_content, hnet, hf]
  | some cached =>
    simp [onFetch, hget, hroot, htruthy, respond, onlineFirst, tryCatch, bind_apply,
      Async.bind, cachesOpen, cacheMatch, fetchNet, Async.pure, step_noFault,
      cache_set_content, hnet, hf]

theorem online_first_fallback_witness :
    (("GET" : String) = "GET" ∧
      fetchKey exampleHost.origin "https://app.example/#/home" = "/" ∧
      offlineNet "https://app.example/#/home" = .error "offline") ∧
    ∃ w1, onFetch exampleHost offlineNet noFault ⟨"GET", "https://app.example/#/home"⟩
          servingWorld =
        ((match (servingWorld.caches.cache .content).find "https://app.example/#/home" with
          | some cached => Reply.responded cached
          | none => Reply.rejected (.network "offline")), w1) ∧
      w1.caches.cache .content = servingWorld.caches.cache .content :=
  ⟨⟨rfl, by decide, rfl⟩,
    online_first_fallback exampleHost offlineNet ⟨"GET", "https://app.example/#/home"⟩
      servingWorld "offline" rfl (by decide) rfl⟩

/-- A cache lookup ignores the fragment of the request: offline, a request for a hash route is
answered with the entry document stored without fragment, and a request for a versioned
script with a fragment is a hit on the entry stored without it, with no network fetch. -/
theorem lookup_ignores_fragment :
    (onFetch exampleHost offlineNet noFault ⟨"GET", "https://app.example/#/home"⟩
        servingWorld).1 = .responded ⟨.text "old page", true⟩ ∧
    onFetch exampleHost offlineNet noFault ⟨"GET", "https://app.example/main.dart.js?v=1#x"⟩
        versionedWorld =
      (.responded ⟨.text "m", true⟩, ⟨versionedWorld.caches,
        [.cachesOpen .content,
          .cacheMatch .content "https://app.example/main.dart.js?v=1#x"]⟩) := by
  refine ⟨by decide, by decide⟩

/-- C12, as stated, fails: with a cached entry document and a network that answers with a
response that is not ok, the listener responds with that response, not with the cached one. -/
theorem nonok_response_is_not_a_failure :
    fetchKey exampleHost.origin "https://app.example/" = "/" ∧
    (servingWorld.caches.cache .content).find "https://app.example/" =
      some ⟨.text "old page", true⟩ ∧
    (onFetch exampleHost errorPageNet noFault ⟨"GET", "https://app.example/"⟩ servingWorld).1 =
      .responded ⟨.text "server error", false⟩ ∧
    (onFetch exampleHost errorPageNet noFault ⟨"GET", "https://app.example/"⟩ servingWorld).1 ≠
      .responded ⟨.text "old page", true⟩ := by
  refine ⟨by decide, by decide, by decide, by decide⟩

/-- C12, amended: for a `GET` request whose derived key is the sentinel `"/"`, a response
that is not ok is not a fetch failure: the listener responds with that live response,
whatever the content cache holds for the request. -/
theorem online_first_nonok_live (host : Host) (net : String → Except String Response)
    (request : Request) (w : World) (resp : Response)
    (hget : request.method = "GET")
    (hroot : fetchKey host.origin request.url = "/")
    (hnet : net request.url = .ok resp)
    (hok : resp.ok = false) :
    (onFetch host net noFault request w).1 = .responded resp ∧
      ∀ cached, (w.caches.cache .content).find request.url = some cached → cached.ok = true →
        (onFetch host net noFault request w).1 ≠ .responded cached := by
  have htruthy : (RESOURCES.get "/").truthy = true := by decide
  have h1 : (onFetch host net noFault request w).1 = .responded resp := by
    simp [onFetch, hget, hroot, htruthy, respond, onlineFirst, tryCatch, bind_apply,
      Async.bind, cachesOpen, cachePut, detached, fetchNet, Async.pure, step_noFault, hnet]
  refine ⟨h1, ?_⟩
  intro cached _ hc heq
  rw [h1] at heq
  injection heq with heq
  rw [heq, hc] at hok
  cases hok

theorem online_first_nonok_live_witness :
    (("GET" : String) = "GET" ∧
      fetchKey exampleHost.origin "https://app.example/" = "/" ∧
      errorPageNet "https://app.example/" = .ok ⟨.text "server error", false⟩ ∧
      (⟨.text "server error", false⟩ : Response).ok = false) ∧
    ((onFetch exampleHost errorPageNet noFault ⟨"GET", "https://app.example/"⟩ servingWorld).1 =
        .responded ⟨.text "server error", false⟩ ∧
      ∀ cached, (servingWorld.caches.cache .content).find "https://app.example/" = some cached →
        cached.ok = true →
        (onFetch exampleHost errorPageNet noFault ⟨"GET", "https://app.example/"⟩
          servingWorld).1 ≠ .responded cached) :=
  ⟨⟨rfl, by decide, rfl, rfl⟩,
    online_first_nonok_live exampleHost errorPageNet ⟨"GET", "https://app.example/"⟩
      servingWorld ⟨.text "server error", false⟩ rfl (by decide) rfl rfl⟩

/-- C15: a request whose method is not `GET` is not intercepted, whatever its URL: the
listener returns without calling `respondWith` and performs no operation. -/
theorem non_get_pass_through (host : Host) (net : String → Except String Response)
    (fails : Faults) (request : Request) (w : World) (h : request.method ≠ "GET") :
    onFetch host net fails request w = (.passThrough, w) := by
  simp [onFetch, h]

theorem non_get_pass_through_witness :
    ("POST" : String) ≠ "GET" ∧
      isManifestKey (fetchKey exampleHost.origin "https://app.example/main.dart.js") = true ∧
      onFetch exampleHost exampleNet noFault ⟨"POST", "https://app.example/main.dart.js"⟩
        servingWorld = (.passThrough, servingWorld) :=
  ⟨by decide, by decide,
    non_get_pass_through exampleHost exampleNet noFault
      ⟨"POST", "https://app.example/main.dart.js"⟩ servingWorld (by decide)⟩

/-- C16: `CORE` lists `main.dart.js`, `index.html`, `flutter_bootstrap.js`,
`assets/AssetManifest.bin.json` and `assets/FontManifest.json`, and every key of `CORE` is a
key of `RESOURCES`. -/
theorem core_subset_of_manifest :
    CORE = ["main.dart.js", "index.html", "flutter_bootstrap.js",
      "assets/AssetManifest.bin.json", "assets/FontManifest.json"] ∧
    ∀ key ∈ CORE, isManifestKey key = true := by
  refine ⟨rfl, by decide⟩

theorem core_subset_of_manifest_witness :
    "index.html" ∈ CORE ∧ isManifestKey "index.html" = true :=
  ⟨by decide, core_subset_of_manifest.2 "index.html" (by decide)⟩



/-! ## Keys and version parameters -/

theorem substring_origin_slash (origin rest : String) :
    substring (origin ++ "/" ++ rest) (origin.length + 1) = rest := by
  have h : (origin ++ "/" ++ rest).data = (origin.data ++ ['/']) ++ rest.data := by
    simp [String.data_append]
  have hl : (origin.data ++ ['/']).length = origin.data.length + 1 := by simp
  simp only [substring, String.length, h]
  rw [← hl, List.drop_left]

theorem origin_slash_ne_origin (origin rest : String) :
    (origin ++ "/" ++ rest == origin) = false := by
  have h : origin ++ "/" ++ rest ≠ origin := by
    intro heq
    have h2 := congrArg String.data heq
    simp [String.data_append] at h2
  simpa using h

theorem startsWith_origin_slash_hash (origin rest : String) :
    startsWith (origin ++ "/" ++ rest) (origin ++ "/#") = ['#'].isPrefixOf rest.data := by
  have h1 : (origin ++ "/" ++ rest).data = (origin.data ++ ['/']) ++ rest.data := by
    simp [String.data_append]
  have h2 : (origin ++ "/#").data = (origin.data ++ ['/']) ++ ['#'] := by
    simp [String.data_append]
  simp only [startsWith, h1, h2]
  rw [Bool.eq_iff_iff, List.isPrefixOf_iff_prefix, List.isPrefixOf_iff_prefix,
    List.prefix_append_right_inj]

/-- The key the `fetch` listener derives for the address `origin + "/" + rest`. -/
theorem fetchKey_origin_slash (origin rest : String) :
    fetchKey origin (origin ++ "/" ++ rest) =
      if (['#'].isPrefixOf rest.data ||
          (if indexOfFound rest "?v=" then splitFirst rest "?v=" else rest) == "") = true
      then "/"
      else (if indexOfFound rest "?v=" then splitFirst rest "?v=" else rest) := by
  simp only [fetchKey, substring_origin_slash, origin_slash_ne_origin,
    startsWith_origin_slash_hash, Bool.false_or]

theorem marker_isPrefixOf_append (k v : List Char) (c : Char) :
    ['?', 'v', '='].isPrefixOf (c :: k ++ ['?', 'v', '='] ++ v) =
      ['?', 'v', '='].isPrefixOf (c :: k) := by
  match k with
  | [] => simp [List.isPrefixOf]
  | [d] => simp [List.isPrefixOf]
  | d :: e :: rest => simp [List.isPrefixOf]

theorem beforeFirst_marker_append (k v : List Char) :
    beforeFirst ['?', 'v', '='] (k ++ ['?', 'v', '='] ++ v) = beforeFirst ['?', 'v', '='] k := by
  induction k with
  | nil => simp [beforeFirst, List.isPrefixOf]
  | cons c cs ih =>
    have h := marker_isPrefixOf_append cs v c
    simp only [List.cons_append, List.append_assoc] at h ih ⊢
    simp only [beforeFirst, h, ih]

theorem occursIn_marker_append (k v : List Char) :
    occursIn ['?', 'v', '='] (k ++ ['?', 'v', '='] ++ v) = true := by
  induction k with
  | nil => simp [occursIn, List.isPrefixOf]
  | cons c cs ih =>
    have h : c :: cs ++ ['?', 'v', '='] ++ v = c :: (cs ++ ['?', 'v', '='] ++ v) := rfl
    rw [h]
    simp only [occursIn, ih, Bool.or_true]

theorem beforeFirst_of_not_occursIn (sep k : List Char) (h : occursIn sep k = false) :
    beforeFirst sep k = k := by
  induction k with
  | nil => rfl
  | cons c cs ih =>
    simp only [occursIn, Bool.or_eq_false_iff] at h
    simp [beforeFirst, h.1, ih h.2]

theorem RESOURCES_keys_plain : ∀ p ∈ RESOURCES,
    occursIn ['?', 'v', '='] p.1.data = false ∧ ['#'].isPrefixOf p.1.data = false ∧
      p.1 ≠ "" := by decide

/-- The candidate of the address with a version parameter appended is the candidate of
the address without it. -/
theorem candidate_ignores_version (k v : String) :
    (if indexOfFound (k ++ "?v=" ++ v) "?v=" then splitFirst (k ++ "?v=" ++ v) "?v="
      else k ++ "?v=" ++ v) =
    (if indexOfFound k "?v=" then splitFirst k "?v=" else k) := by
  have hd : (k ++ "?v=" ++ v).data = k.data ++ ['?', 'v', '='] ++ v.data := by
    simp [String.data_append]
  have hm : ("?v=" : String).data = ['?', 'v', '='] := rfl
  simp only [indexOfFound, splitFirst, hd, hm, occursIn_marker_append, if_true,
    beforeFirst_marker_append]
  cases ho : occursIn ['?', 'v', '='] k.data with
  | true => simp
  | false => simp [beforeFirst_of_not_occursIn _ _ ho]

/-- C19: the `fetch` listener derives the same key for `origin + "/" + k + "?v=" + v` as for
`origin + "/" + k`, for every origin and all strings `k` and `v`; and for a manifest key `k`
that key is `k`. -/
theorem fetchKey_ignores_version (origin k v : String) :
    fetchKey origin (origin ++ "/" ++ k ++ "?v=" ++ v) = fetchKey origin (origin ++ "/" ++ k) ∧
    (isManifestKey k = true → fetchKey origin (origin ++ "/" ++ k ++ "?v=" ++ v) = k) := by
  have hassoc : origin ++ "/" ++ k ++ "?v=" ++ v = origin ++ "/" ++ (k ++ "?v=" ++ v) := by
    simp [String.append_assoc]
  have hhash : ['#'].isPrefixOf (k ++ "?v=" ++ v).data = ['#'].isPrefixOf k.data := by
    have hd : (k ++ "?v=" ++ v).data = k.data ++ ['?', 'v', '='] ++ v.data := by
      simp [String.data_append]
    rw [hd]
    cases hk : k.data with
    | nil => simp [List.isPrefixOf]
    | cons c cs => simp [List.isPrefixOf]
  have heq : fetchKey origin (origin ++ "/" ++ k ++ "?v=" ++ v) =
      fetchKey origin (origin ++ "/" ++ k) := by
    rw [hassoc, fetchKey_origin_slash, fetchKey_origin_slash, candidate_ignores_version, hhash]
  refine ⟨heq, ?_⟩
  intro hk
  simp only [isManifestKey, Option.isSome_iff_exists] at hk
  obtain ⟨fp, hfp⟩ := hk
  obtain ⟨h1, h2, h3⟩ := RESOURCES_keys_plain _ (mem_of_lookup_eq_some _ _ _ hfp)
  have h4 : indexOfFound k "?v=" = false := h1
  have h5 : (k == "") = false := by simpa using h3
  rw [heq, fetchKey_origin_slash]
  simp only at h2
  simp [h4, h2, h5]

theorem fetchKey_ignores_version_witness :
    isManifestKey "main.dart.js" = true ∧
      fetchKey "https://app.example" ("https://app.example" ++ "/" ++ "main.dart.js" ++ "?v=" ++ "42")
        = "main.dart.js" :=
  ⟨by decide, (fetchKey_ignores_version "https://app.example" "main.dart.js" "42").2 (by decide)⟩

/-- An entry whose key is in `RESOURCES` with the fingerprint of the old record is not stale. -/
theorem stale_of_unchanged (host : Host) (old : JSObject) (key fp : String)
    (hnew : RESOURCES.lookup key = some fp) (hold : old.lookup key = some fp) :
    stale host old key = false := by
  have hne := RESOURCES_values_nonempty _ (mem_of_lookup_eq_some _ _ _ hnew)
  have hv : (fp != "") = true := by simpa using hne
  simp [stale, JSObject.get, hnew, hold, JSValue.truthy, JSValue.looseNe, hv]

/-- C20, as stated, fails: the `fetch` listener admits `main.dart.js?v=1` under the manifest
key `main.dart.js`, the `activate` listener computes the key `main.dart.js?v=1` for the
stored entry, and with an unchanged manifest Path B deletes that entry. -/
theorem key_disagreement_on_version_marker :
    fetchKey exampleHost.origin "https://app.example/main.dart.js?v=1" = "main.dart.js" ∧
    isManifestKey "main.dart.js" = true ∧
    cacheKey exampleHost.origin "https://app.example/main.dart.js?v=1" = "main.dart.js?v=1" ∧
    ∃ w1, activate exampleHost noFault versionedWorld = .ok () w1 ∧
      (w1.caches.cache .content).find "https://app.example/main.dart.js?v=1" = none := by
  obtain ⟨w1, h1, _, _, h4⟩ := activate_pathB_find exampleHost versionedWorld RESOURCES true
    (by decide)
  refine ⟨by decide, by decide, by decide, w1, h1, ?_⟩
  rw [h4]
  decide

/-- C20, amended: for a request URL that carries no `?v=` marker after the origin and does
not begin with the origin followed by `/#`, the key the `activate` listener and
`downloadOffline` compute equals the key the `fetch` listener derives; hence, when that key
is in `RESOURCES` with the fingerprint of the old record, an entry stored under the URL is
still in the content cache after Path B, unchanged unless a staged request matches it. -/
theorem key_agreement_without_markers (host : Host) (w : World) (old : JSObject) (flag : Bool)
    (url fp : String) (r : Response)
    (hrec : (w.caches.cache .manifest).find "manifest" = some ⟨.manifest old, flag⟩)
    (hver : indexOfFound (substring url (host.origin.length + 1)) "?v=" = false)
    (hfrag : startsWith url (host.origin ++ "/#") = false)
    (hlisted : RESOURCES.lookup (fetchKey host.origin url) = some fp)
    (hold : old.lookup (fetchKey host.origin url) = some fp)
    (hentry : (url, r) ∈ (w.caches.cache .content).entries) :
    cacheKey host.origin url = fetchKey host.origin url ∧
    ∃ w1, activate host noFault w = .ok () w1 ∧
      ∃ r1, (w1.caches.cache .content).find url = some r1 ∧
        ((w.caches.cache .temp).find url = none → r1 = r) := by
  have hkey : cacheKey host.origin url = fetchKey host.origin url := by
    simp only [cacheKey, fetchKey, hver, hfrag, Bool.or_false]
    by_cases h1 : url = host.origin
    · subst h1
      have hd : substring host.origin (host.origin.length + 1) = "" := by
        have : List.drop (host.origin.data.length + 1) host.origin.data = [] :=
          List.drop_eq_nil_of_le (Nat.le_succ _)
        simp only [substring, String.length, this]
      simp [hd]
    · have : (url == host.origin) = false := by simpa using h1
      simp [this]
  refine ⟨hkey, ?_⟩
  obtain ⟨w1, h1, _, _, h4⟩ := activate_pathB_find host w old flag hrec
  refine ⟨w1, h1, ?_⟩
  have hs := stale_of_unchanged host old _ fp hlisted hold
  rw [← hkey] at hs
  have hany := any_stale_of_mem host old (w.caches.cache .content) url r hentry
  rw [hs] at hany
  have hfind := Cache.find_of_mem _ url r hentry
  cases hst : (w.caches.cache .temp).find url with
  | some staged =>
    exact ⟨staged, by rw [h4, hst]; rfl, fun hn => by cases hn⟩
  | none =>
    exact ⟨r, by rw [h4, hst, hany, hfind]; rfl, fun _ => rfl⟩

theorem key_agreement_without_markers_witness :
    ((plainWorld.caches.cache .manifest).find "manifest" = some ⟨.manifest RESOURCES, true⟩ ∧
      indexOfFound (substring "https://app.example/main.dart.js"
        (exampleHost.origin.length + 1)) "?v=" = false ∧
      startsWith "https://app.example/main.dart.js" (exampleHost.origin ++ "/#") = false ∧
      RESOURCES.lookup (fetchKey exampleHost.origin "https://app.example/main.dart.js") =
        some "33ca2f5b7b7564cda7b0f0c6139f8cab" ∧
      (("https://app.example/main.dart.js", ⟨.text "m", true⟩) : String × Response) ∈
        (plainWorld.caches.cache .content).entries) ∧
    (cacheKey exampleHost.origin "https://app.example/main.dart.js" =
        fetchKey exampleHost.origin "https://app.example/main.dart.js" ∧
      ∃ w1, activate exampleHost noFault plainWorld = .ok () w1 ∧
        ∃ r1, (w1.caches.cache .content).find "https://app.example/main.dart.js" = some r1 ∧
          ((plainWorld.caches.cache .temp).find "https://app.example/main.dart.js" = none →
            r1 = ⟨.text "m", true⟩)) :=
  ⟨⟨by decide, by decide, by decide, by decide, by decide⟩,
    key_agreement_without_markers exampleHost plainWorld RESOURCES true
      "https://app.example/main.dart.js" "33ca2f5b7b7564cda7b0f0c6139f8cab" ⟨.text "m", true⟩
      (by decide) (by decide) (by decide) (by decide) (by decide) (by decide)⟩


/-! ## `downloadOffline` -/

theorem Cache.mem_keys_put_of_mem (c : Cache) (u v : String) (r : Response)
    (hv : v ∈ c.keys) (hs : sameResource v u = false) : v ∈ (c.put u r).keys := by
  simp only [Cache.keys, Cache.put, List.map_append, List.mem_append, List.mem_map,
    List.mem_filter] at hv ⊢
  obtain ⟨e, he, hev⟩ := hv
  exact Or.inl ⟨e, ⟨he, by rw [hev]; simp [hs]⟩, hev⟩

theorem Cache.mem_keys_put_self (c : Cache) (u : String) (r : Response) :
    u ∈ (c.put u r).keys := by
  simp [Cache.keys, Cache.put]

/-- A stored request that no request of the batch matches is still stored after the batch. -/
theorem mem_keys_putAll_of_mem (pairs : List (String × Response)) (c : Cache) (v : String)
    (hv : v ∈ c.keys) (hs : ∀ p ∈ pairs, sameResource v p.1 = false) :
    v ∈ (pairs.foldl (fun c p => c.put p.1 p.2) c).keys := by
  induction pairs generalizing c with
  | nil => exact hv
  | cons p ps ih =>
    simp only [List.foldl_cons]
    exact ih _ (Cache.mem_keys_put_of_mem c p.1 v p.2 hv (hs p (by simp)))
      (fun q hq => hs q (by simp [hq]))

/-- A request of the batch that no later request of the batch matches is stored after the
batch. -/
theorem mem_keys_putAll_of_new (l1 l2 : List (String × Response)) (c : Cache) (v : String)
    (r : Response) (hs : ∀ p ∈ l2, sameResource v p.1 = false) :
    v ∈ ((l1 ++ (v, r) :: l2).foldl (fun c p => c.put p.1 p.2) c).keys := by
  rw [List.foldl_append, List.foldl_cons]
  exact mem_keys_putAll_of_mem l2 _ v (Cache.mem_keys_put_self _ v r) hs

theorem find_putAll_of_no_match (pairs : List (String × Response)) (c : Cache) (v : String)
    (h : ∀ p ∈ pairs, sameResource v p.1 = false) :
    (pairs.foldl (fun c p => c.put p.1 p.2) c).find v = c.find v := by
  induction pairs generalizing c with
  | nil => rfl
  | cons p ps ih =>
    simp only [List.foldl_cons]
    rw [ih _ (fun q hq => h q (by simp [hq])), Cache.find_put, h p (by simp)]
    simp

theorem find_putAll_isSome (pairs : List (String × Response)) (c : Cache) (v : String)
    (h : (c.find v).isSome = true) :
    ((pairs.foldl (fun c p => c.put p.1 p.2) c).find v).isSome = true := by
  induction pairs generalizing c with
  | nil => exact h
  | cons p ps ih =>
    simp only [List.foldl_cons]
    apply ih
    rw [Cache.find_put]
    by_cases hs : sameResource v p.1 = true
    · simp [hs]
    · simpa [hs] using h

/-- When every response of the batch is `r0` and a request of the batch matches `v`, the
batch leaves `r0` for `v`. -/
theorem find_putAll_const (pairs : List (String × Response)) (c : Cache) (v : String)
    (r0 : Response) (hr : ∀ p ∈ pairs, p.2 = r0)
    (hm : ∃ p ∈ pairs, sameResource v p.1 = true) :
    (pairs.foldl (fun c p => c.put p.1 p.2) c).find v = some r0 := by
  induction pairs generalizing c with
  | nil =>
    obtain ⟨p, hp, _⟩ := hm
    cases hp
  | cons p ps ih =>
    simp only [List.foldl_cons]
    by_cases hps : ∃ q ∈ ps, sameResource v q.1 = true
    · exact ih _ (fun q hq => hr q (by simp [hq])) hps
    · have hnone : ∀ q ∈ ps, sameResource v q.1 = false := by
        intro q hq
        by_contra hc
        exact hps ⟨q, hq, by simpa using hc⟩
      obtain ⟨q, hq, hqs⟩ := hm
      have hpv : sameResource v p.1 = true := by
        rcases List.mem_cons.mp hq with h1 | h1
        · rw [← h1]; exact hqs
        · rw [hnone q h1] at hqs; cases hqs
      rw [find_putAll_of_no_match _ _ _ hnone, Cache.find_put, if_pos hpv, hr p (by simp)]

theorem fetchAll_keys (net : String → Except String Response) (urls : List String)
    (pairs : List (String × Response)) (h : fetchAll net urls = .ok pairs) :
    pairs.map Prod.fst = urls := by
  induction urls generalizing pairs with
  | nil =>
    simp only [fetchAll] at h
    cases h
    rfl
  | cons u us ih =>
    simp only [fetchAll] at h
    cases hn : net u with
    | error reason => simp [hn] at h
    | ok r =>
      simp only [hn] at h
      cases hok : r.ok with
      | false => simp [hok] at h
      | true =>
        simp only [hok, if_true] at h
        cases hf : fetchAll net us with
        | error err => simp [hf] at h
        | ok ps =>
          simp only [hf] at h
          cases h
          simp [ih ps hf]

theorem markContent_run (origin : String) (urls acc : List String) (w : World) :
    markContent (some origin) urls acc w =
      .ok ((urls.map (cacheKey origin)).reverse ++ acc) w := by
  induction urls generalizing acc with
  | nil => rfl
  | cons u us ih => simp [markContent, ih]

/-- The run of `downloadOffline`: the open, the listing, and `addAll` on the absent keys. -/
theorem downloadOffline_run (origin : String) (resolve : String → String)
    (net : String → Except String Response) (w : World) :
    downloadOffline (some origin) resolve net noFault w =
      cacheAddAll resolve net noFault .content
        (absentKeys origin (w.caches.cache .content).keys)
        ⟨w.caches.set .content (some (w.caches.cache .content)),
          w.trace ++ [.cachesOpen .content, .cacheKeys .content]⟩ := by
  simp [downloadOffline, bind_apply, Async.bind, cachesOpen, cacheKeys, step_noFault,
    markContent_run, cache_set_content, absentKeys]

theorem cacheAddAll_ok (resolve : String → String) (net : String → Except String Response)
    (keys : List String) (w : World) (pairs : List (String × Response))
    (h : fetchAll net (keys.map resolve) = .ok pairs) :
    cacheAddAll resolve net noFault .content keys w =
      .ok () ⟨w.caches.set .content
          (some (pairs.foldl (fun c p => c.put p.1 p.2) (w.caches.cache .content))),
        w.trace ++ [.cacheAddAll .content keys] ++ (keys.map resolve).map Effect.fetch⟩ := by
  simp [cacheAddAll, noFault, h]

theorem cacheAddAll_error (resolve : String → String) (net : String → Except String Response)
    (keys : List String) (w : World) (err : JSError)
    (h : fetchAll net (keys.map resolve) = .error err) :
    cacheAddAll resolve net noFault .content keys w =
      .threw err ⟨w.caches,
        w.trace ++ [.cacheAddAll .content keys] ++ (keys.map resolve).map Effect.fetch⟩ := by
  simp [cacheAddAll, noFault, h]

theorem RESOURCES_keys_nodup : (RESOURCES.map Prod.fst).Nodup := by decide

theorem RESOURCES_keys_not_inherited :
    ∀ p ∈ RESOURCES, objectPrototypeNames.contains p.1 = false := by decide

theorem isManifestKey_iff_mem (key : String) :
    isManifestKey key = true ↔ key ∈ RESOURCES.map Prod.fst := by
  simp only [isManifestKey, Option.isSome_iff_exists, List.mem_map]
  constructor
  · rintro ⟨v, hv⟩
    exact ⟨(key, v), mem_of_lookup_eq_some _ _ _ hv, rfl⟩
  · rintro ⟨⟨k, v⟩, hp, hk⟩
    simp only at hk
    subst hk
    cases hl : RESOURCES.lookup k with
    | some x => exact ⟨x, rfl⟩
    | none =>
      exfalso
      have hall := List.lookup_eq_none_iff.mp hl (k, v) hp
      simp at hall

/-- A manifest key is asked for exactly when no request of the content cache has it as key. -/
theorem mem_absentKeys_iff (origin : String) (urls : List String) (k : String) :
    k ∈ absentKeys origin urls ↔
      isManifestKey k = true ∧ ∀ u ∈ urls, cacheKey origin u ≠ k := by
  rw [absentKeys, List.mem_filter, isManifestKey_iff_mem]
  constructor
  · rintro ⟨hk, hr⟩
    refine ⟨hk, ?_⟩
    intro u hu heq
    have hc : ((urls.map (cacheKey origin)).reverse).contains k = true := by
      rw [List.elem_iff]
      simp only [List.mem_reverse, List.mem_map]
      exact ⟨u, hu, heq⟩
    simp only [currentRead, hc, Bool.true_or, Bool.not_true] at hr
    cases hr
  · rintro ⟨hk, hr⟩
    refine ⟨hk, ?_⟩
    obtain ⟨p, hp, hpk⟩ := List.mem_map.mp hk
    have hni := RESOURCES_keys_not_inherited p hp
    rw [hpk] at hni
    have hnc : ((urls.map (cacheKey origin)).reverse).contains k = false := by
      rw [Bool.eq_false_iff]
      intro hc
      rw [List.elem_iff] at hc
      simp only [List.mem_reverse, List.mem_map] at hc
      obtain ⟨u, hu, heq⟩ := hc
      exact hr u hu heq
    simp only [currentRead, hnc, hni, Bool.or_false, Bool.not_false]

theorem absentKeys_nodup (origin : String) (urls : List String) :
    (absentKeys origin urls).Nodup :=
  RESOURCES_keys_nodup.filter _

theorem cacheKey_rootResolve (origin key : String) (h : isManifestKey key = true) :
    cacheKey origin (rootResolve origin key) = key := by
  simp only [isManifestKey, Option.isSome_iff_exists] at h
  obtain ⟨fp, hfp⟩ := h
  obtain ⟨_, _, hne⟩ := RESOURCES_keys_plain _ (mem_of_lookup_eq_some _ _ _ hfp)
  simp only at hne
  by_cases hk : key = "/"
  · subst hk
    have h1 : rootResolve origin "/" = origin ++ "/" ++ "" := by
      simp [rootResolve]
    rw [h1, cacheKey, substring_origin_slash]
    rfl
  · have hk2 : (key == "/") = false := by simpa using hk
    have hne2 : (key == "") = false := by simpa using hne
    have h1 : rootResolve origin key = origin ++ "/" ++ key := by
      simp [rootResolve, hk]
    rw [h1, cacheKey, substring_origin_slash]
    simp [hne]


theorem RESOURCES_keys_hashfree : ∀ p ∈ RESOURCES, '#' ∉ p.1.data := by decide

theorem hashfree_of_isManifestKey (key : String) (h : isManifestKey key = true) :
    '#' ∉ key.data := by
  simp only [isManifestKey, Option.isSome_iff_exists] at h
  obtain ⟨fp, hfp⟩ := h
  exact RESOURCES_keys_hashfree _ (mem_of_lookup_eq_some _ _ _ hfp)

theorem stripFragment_of_hashfree (u : String) (h : '#' ∉ u.data) : stripFragment u = u := by
  have : u.data.takeWhile (fun ch => ch != '#') = u.data := by
    rw [List.takeWhile_eq_self_iff]
    intro x hx
    have : x ≠ '#' := fun hc => h (hc ▸ hx)
    simpa using this
  simp only [stripFragment, this]

/-- The characters of a URL: those before the fragment, then nothing or a fragment that begins
with `#`. -/
theorem data_eq_stripFragment_append (u : String) :
    u.data = (stripFragment u).data ∨
      ∃ rest, u.data = (stripFragment u).data ++ '#' :: rest := by
  have hsplit := List.takeWhile_append_dropWhile (fun ch => ch != '#') u.data
  cases hd : u.data.dropWhile (fun ch => ch != '#') with
  | nil =>
    left
    rw [hd, List.append_nil] at hsplit
    simp only [stripFragment]
    exact hsplit.symm
  | cons c rest =>
    right
    have hc : c = '#' := by
      have := List.head_dropWhile_not (fun ch => ch != '#') u.data (by rw [hd]; simp)
      simp only [hd, List.head_cons] at this
      simpa using this
    refine ⟨rest, ?_⟩
    rw [hd, hc] at hsplit
    simp only [stripFragment]
    exact hsplit.symm

theorem rootResolve_data (origin key : String) :
    ∃ x, (rootResolve origin key).data = origin.data ++ '/' :: x ∧
      (key ≠ "/" → x = key.data) := by
  by_cases hk : key = "/"
  · refine ⟨[], ?_, fun h => absurd hk h⟩
    simp [rootResolve, hk, String.data_append]
  · refine ⟨key.data, ?_, fun _ => rfl⟩
    simp [rootResolve, hk, String.data_append]

theorem stripFragment_rootResolve (host : Host) (key : String)
    (h : isManifestKey key = true) :
    stripFragment (rootResolve host.origin key) = rootResolve host.origin key := by
  apply stripFragment_of_hashfree
  obtain ⟨x, hx, hxk⟩ := rootResolve_data host.origin key
  rw [hx]
  intro hmem
  rcases List.mem_append.mp hmem with h1 | h1
  · exact host.plain h1
  · rcases List.mem_cons.mp h1 with h2 | h2
    · cases h2
    · by_cases hk : key = "/"
      · obtain ⟨y, hy, _⟩ := rootResolve_data host.origin key
        have hnil : x = [] := by
          have h3 : (rootResolve host.origin key).data = host.origin.data ++ ['/'] := by
            simp [rootResolve, hk, String.data_append]
          rw [hx] at h3
          have := List.append_cancel_left h3
          simpa using this
        rw [hnil] at h2
        cases h2
      · rw [hxk hk] at h2
        exact hashfree_of_isManifestKey key h h2

/-- A stored request that matches the resolved URL of a manifest key either has that key, or
has a key with a fragment mark in it. -/
theorem cacheKey_of_match (host : Host) (u key : String) (hk : isManifestKey key = true)
    (hs : stripFragment u = rootResolve host.origin key) :
    cacheKey host.origin u = key ∨ '#' ∈ (cacheKey host.origin u).data := by
  rcases data_eq_stripFragment_append u with h | ⟨rest, h⟩
  · left
    have hu : u = rootResolve host.origin key := by
      rw [← hs]
      exact String.ext h
    rw [hu]
    exact cacheKey_rootResolve _ key hk
  · right
    obtain ⟨x, hx, _⟩ := rootResolve_data host.origin key
    rw [hs, hx] at h
    have hdrop : List.drop (host.origin.data.length + 1) u.data = x ++ '#' :: rest := by
      have h2 : u.data = (host.origin.data ++ ['/']) ++ (x ++ '#' :: rest) := by
        rw [h]; simp
      have hl : (host.origin.data ++ ['/']).length = host.origin.data.length + 1 := by simp
      rw [h2, ← hl, List.drop_left]
    have hsub : substring u (host.origin.length + 1) = ⟨x ++ '#' :: rest⟩ := by
      simp only [substring, String.length, hdrop]
    have hne : (⟨x ++ '#' :: rest⟩ : String) ≠ "" := by
      intro hc
      have := congrArg String.data hc
      simp at this
    have hkey : cacheKey host.origin u = ⟨x ++ '#' :: rest⟩ := by
      simp only [cacheKey, hsub]
      simp [hne]
    rw [hkey]
    simp

theorem fetchAll_exampleNet (urls : List String) :
    ∃ pairs, fetchAll exampleNet urls = .ok pairs ∧ ∀ p ∈ pairs, p.2 = ⟨.text "page", true⟩ := by
  induction urls with
  | nil => exact ⟨[], rfl, by simp⟩
  | cons u us ih =>
    obtain ⟨ps, hps, hall⟩ := ih
    refine ⟨(u, ⟨.text "page", true⟩) :: ps, by simp [fetchAll, exampleNet, hps], ?_⟩
    intro p hp
    rcases List.mem_cons.mp hp with h | h
    · rw [h]
    · exact hall p h

/-- C13, as stated, fails: with the content cache holding the entry document under
`https://app.example/#/home`, as `onlineFirst` stores it, `downloadOffline` asks for the key
`"/"`, and the batch replaces that entry: afterwards the request is answered with the freshly
fetched response and the old entry is gone. -/
theorem bulk_sync_replaces_fragment_entry :
    (("https://app.example/#/home", ⟨.text "old page", true⟩) : String × Response) ∈
      (hashRouteWorld.caches.cache .content).entries ∧
    ∃ w1, downloadOffline (some exampleHost.origin) (rootResolve exampleHost.origin) exampleNet
        noFault hashRouteWorld = .ok () w1 ∧
      (w1.caches.cache .content).find "https://app.example/#/home" =
        some ⟨.text "page", true⟩ ∧
      (("https://app.example/#/home", ⟨.text "old page", true⟩) : String × Response) ∉
        (w1.caches.cache .content).entries := by
  refine ⟨by decide, ?_⟩
  obtain ⟨pairs, hp, hall⟩ := fetchAll_exampleNet ((absentKeys exampleHost.origin
    (hashRouteWorld.caches.cache .content).keys).map (rootResolve exampleHost.origin))
  have hrun := downloadOffline_run exampleHost.origin (rootResolve exampleHost.origin)
    exampleNet hashRouteWorld
  rw [cacheAddAll_ok _ _ _ _ _ hp] at hrun
  have hroot : "/" ∈ absentKeys exampleHost.origin
      (hashRouteWorld.caches.cache .content).keys := by
    rw [mem_absentKeys_iff]
    exact ⟨by decide, by decide⟩
  have hkeys := fetchAll_keys _ _ _ hp
  have hpair : ∃ p ∈ pairs, sameResource "https://app.example/#/home" p.1 = true := by
    have hmem : rootResolve exampleHost.origin "/" ∈ pairs.map Prod.fst := by
      rw [hkeys]
      exact List.mem_map.mpr ⟨"/", hroot, rfl⟩
    obtain ⟨p, hp1, hp2⟩ := List.mem_map.mp hmem
    refine ⟨p, hp1, ?_⟩
    rw [hp2]
    decide
  have hfind := find_putAll_const pairs
    ((hashRouteWorld.caches.set .content
      (some (hashRouteWorld.caches.cache .content))).cache .content)
    "https://app.example/#/home" ⟨.text "page", true⟩ hall hpair
  refine ⟨_, hrun, ?_, ?_⟩
  · simpa [cache_set_content] using hfind
  · intro hmem
    have := Cache.find_of_mem _ _ _ hmem
    simp only [cache_set_content] at this hfind
    rw [hfind] at this
    exact absurd this (by decide)

/-- C13, amended: with the global `origin` bound to the origin of the worker and no storage
operation raising, `downloadOffline` opens the content cache, lists its requests and issues
one `addAll` for a list `requested`, fetching exactly the resolved keys of that list; the list
has no repetition and holds exactly the manifest keys that no request of the content cache
has as its key. When every manifest key resolves to a URL without fragment whose key is that
key, every stored request is still answered afterwards, and an entry stored under a URL
without fragment is still answered with the same response, whether the batch succeeded or
failed. -/
theorem downloadOffline_fetch_set (host : Host) (resolve : String → String)
    (net : String → Except String Response) (w : World)
    (hres : ∀ k, isManifestKey k = true → cacheKey host.origin (resolve k) = k)
    (hplain : ∀ k, isManifestKey k = true → stripFragment (resolve k) = resolve k) :
    ∃ requested : List String,
      (downloadOffline (some host.origin) resolve net noFault w).world.trace =
        w.trace ++ [.cachesOpen .content, .cacheKeys .content, .cacheAddAll .content requested]
          ++ (requested.map resolve).map Effect.fetch ∧
      requested.Nodup ∧
      (∀ k, k ∈ requested ↔
        isManifestKey k = true ∧ ∀ u ∈ (w.caches.cache .content).keys,
          cacheKey host.origin u ≠ k) ∧
      (∀ u ∈ (w.caches.cache .content).keys,
        (((downloadOffline (some host.origin) resolve net noFault w).world.caches.cache
          .content).find u).isSome = true) ∧
      (∀ u r, (u, r) ∈ (w.caches.cache .content).entries → stripFragment u = u →
        ((downloadOffline (some host.origin) resolve net noFault w).world.caches.cache
          .content).find u = some r) := by
  refine ⟨absentKeys host.origin (w.caches.cache .content).keys, ?_, absentKeys_nodup _ _,
    mem_absentKeys_iff host.origin (w.caches.cache .content).keys, ?_, ?_⟩
  · rw [downloadOffline_run]
    cases hf : fetchAll net ((absentKeys host.origin (w.caches.cache .content).keys).map
        resolve) with
    | error err => rw [cacheAddAll_error _ _ _ _ _ hf]; simp [Outcome.world]
    | ok pairs => rw [cacheAddAll_ok _ _ _ _ _ hf]; simp [Outcome.world]
  · intro u hu
    obtain ⟨r, hr⟩ := Cache.find_isSome_of_mem_keys _ u hu
    rw [downloadOffline_run]
    cases hf : fetchAll net ((absentKeys host.origin (w.caches.cache .content).keys).map
        resolve) with
    | error err =>
      rw [cacheAddAll_error _ _ _ _ _ hf]
      simp [Outcome.world, cache_set_content, hr]
    | ok pairs =>
      rw [cacheAddAll_ok _ _ _ _ _ hf]
      simp only [Outcome.world, cache_set_content, set_set_content]
      exact find_putAll_isSome _ _ _ (by simp [hr])
  · intro u r hu hfree
    have hfind := Cache.find_of_mem _ u r hu
    rw [downloadOffline_run]
    cases hf : fetchAll net ((absentKeys host.origin (w.caches.cache .content).keys).map
        resolve) with
    | error err =>
      rw [cacheAddAll_error _ _ _ _ _ hf]
      simpa [Outcome.world, cache_set_content] using hfind
    | ok pairs =>
      rw [cacheAddAll_ok _ _ _ _ _ hf]
      simp only [Outcome.world, cache_set_content, set_set_content]
      rw [find_putAll_of_no_match _ _ _ ?_]
      · exact hfind
      · intro p hp
        rw [Bool.eq_false_iff]
        intro hsame
        have hpk : p.1 ∈ (absentKeys host.origin (w.caches.cache .content).keys).map resolve := by
          rw [← fetchAll_keys _ _ _ hf]
          exact List.mem_map.mpr ⟨p, hp, rfl⟩
        obtain ⟨k, hk, hkp⟩ := List.mem_map.mp hpk
        have hk2 := (mem_absentKeys_iff host.origin (w.caches.cache .content).keys k).mp hk
        rw [sameResource_iff, hfree, ← hkp, hplain k hk2.1] at hsame
        have hkey := hres k hk2.1
        rw [← hsame] at hkey
        exact hk2.2 u (List.mem_map.mpr ⟨(u, r), hu, rfl⟩) hkey

theorem downloadOffline_fetch_set_witness :
    ((∀ k, isManifestKey k = true →
        cacheKey exampleHost.origin (rootResolve exampleHost.origin k) = k) ∧
      (∀ k, isManifestKey k = true →
        stripFragment (rootResolve exampleHost.origin k) = rootResolve exampleHost.origin k)) ∧
    ∃ requested : List String,
      (downloadOffline (some exampleHost.origin) (rootResolve exampleHost.origin) exampleNet
          noFault servingWorld).world.trace =
        servingWorld.trace ++
          [.cachesOpen .content, .cacheKeys .content, .cacheAddAll .content requested]
          ++ (requested.map (rootResolve exampleHost.origin)).map Effect.fetch ∧
      requested.Nodup ∧
      (∀ k, k ∈ requested ↔
        isManifestKey k = true ∧ ∀ u ∈ (servingWorld.caches.cache .content).keys,
          cacheKey exampleHost.origin u ≠ k) ∧
      (∀ u ∈ (servingWorld.caches.cache .content).keys,
        (((downloadOffline (some exampleHost.origin) (rootResolve exampleHost.origin) exampleNet
          noFault servingWorld).world.caches.cache .content).find u).isSome = true) ∧
      (∀ u r, (u, r) ∈ (servingWorld.caches.cache .content).entries → stripFragment u = u →
        ((downloadOffline (some exampleHost.origin) (rootResolve exampleHost.origin) exampleNet
          noFault servingWorld).world.caches.cache .content).find u = some r) :=
  ⟨⟨fun k hk => cacheKey_rootResolve _ k hk,
      fun k hk => stripFragment_rootResolve exampleHost k hk⟩,
    downloadOffline_fetch_set exampleHost (rootResolve exampleHost.origin) exampleNet
      servingWorld (fun k hk => cacheKey_rootResolve _ k hk)
      (fun k hk => stripFragment_rootResolve exampleHost k hk)⟩

/-- Two manifest keys whose resolved URLs name the same resource are the same key. -/
theorem rootResolve_match_inj (host : Host) (k1 k2 : String) (h1 : isManifestKey k1 = true)
    (h2 : isManifestKey k2 = true)
    (hs : sameResource (rootResolve host.origin k1) (rootResolve host.origin k2) = true) :
    k1 = k2 := by
  rw [sameResource_iff, stripFragment_rootResolve host k1 h1,
    stripFragment_rootResolve host k2 h2] at hs
  have := congrArg (cacheKey host.origin) hs
  rwa [cacheKey_rootResolve _ k1 h1, cacheKey_rootResolve _ k2 h2] at this

/-- After a completed batch for the absent keys, every manifest key is the key of a stored
request. -/
theorem absentKeys_after_batch (host : Host) (c : Cache) (pairs : List (String × Response))
    (hkeys : pairs.map Prod.fst =
      (absentKeys host.origin c.keys).map (rootResolve host.origin)) :
    absentKeys host.origin (pairs.foldl (fun c p => c.put p.1 p.2) c).keys = [] := by
  rw [List.eq_nil_iff_forall_not_mem]
  intro k hmem
  have h1 := (mem_absentKeys_iff host.origin _ k).mp hmem
  have hreqd : ∀ p ∈ pairs, ∃ k2, k2 ∈ absentKeys host.origin c.keys ∧
      p.1 = rootResolve host.origin k2 := by
    intro p hp
    have : p.1 ∈ (absentKeys host.origin c.keys).map (rootResolve host.origin) := by
      rw [← hkeys]
      exact List.mem_map.mpr ⟨p, hp, rfl⟩
    obtain ⟨k2, hk2, hk2p⟩ := List.mem_map.mp this
    exact ⟨k2, hk2, hk2p.symm⟩
  by_cases hreq : k ∈ absentKeys host.origin c.keys
  · obtain ⟨s, t, hst⟩ := List.append_of_mem hreq
    have hnd := absentKeys_nodup host.origin c.keys
    rw [hst] at hnd
    have hkt : k ∉ t := by
      have := (List.nodup_append.mp hnd).2.1
      exact (List.nodup_cons.mp this).1
    rw [hst, List.map_append, List.map_cons] at hkeys
    obtain ⟨l1, l2, hl, _, hl2⟩ := List.map_eq_append_iff.mp hkeys
    obtain ⟨p, l3, hl3, hp, hl4⟩ := List.map_eq_cons_iff.mp hl2
    have hin : rootResolve host.origin k ∈
        (pairs.foldl (fun c p => c.put p.1 p.2) c).keys := by
      have hpe : p = (rootResolve host.origin k, p.2) := by
        rw [← hp]
      rw [hl, hl3, hpe]
      apply mem_keys_putAll_of_new
      intro q hq
      rw [Bool.eq_false_iff]
      intro hsame
      have hq1 : q.1 ∈ t.map (rootResolve host.origin) := by
        rw [← hl4]
        exact List.mem_map.mpr ⟨q, hq, rfl⟩
      obtain ⟨k2, hk2, hk2q⟩ := List.mem_map.mp hq1
      have hk2m : isManifestKey k2 = true := by
        have : k2 ∈ absentKeys host.origin c.keys := by
          rw [hst]
          exact List.mem_append_right _ (List.mem_cons_of_mem _ hk2)
        exact ((mem_absentKeys_iff host.origin _ k2).mp this).1
      rw [← hk2q] at hsame
      have := rootResolve_match_inj host k k2 h1.1 hk2m hsame
      exact hkt (this ▸ hk2)
    exact h1.2 _ hin (cacheKey_rootResolve _ k h1.1)
  · have hex : ¬ ∀ u ∈ c.keys, cacheKey host.origin u ≠ k :=
      fun hall => hreq ((mem_absentKeys_iff host.origin _ k).mpr ⟨h1.1, hall⟩)
    push_neg at hex
    obtain ⟨u, hu, hku⟩ := hex
    have hin : u ∈ (pairs.foldl (fun c p => c.put p.1 p.2) c).keys := by
      apply mem_keys_putAll_of_mem _ _ _ hu
      intro p hp
      rw [Bool.eq_false_iff]
      intro hsame
      obtain ⟨k2, hk2, hk2p⟩ := hreqd p hp
      have hk2m := ((mem_absentKeys_iff host.origin _ k2).mp hk2).1
      rw [sameResource_iff, hk2p, stripFragment_rootResolve host k2 hk2m] at hsame
      rcases cacheKey_of_match host u k2 hk2m hsame with h | h
      · rw [hku] at h
        exact hreq (h ▸ hk2)
      · rw [hku] at h
        exact hashfree_of_isManifestKey k h1.1 h
    exact h1.2 u hin hku

/-- C14: with the global `origin` bound to the origin of the worker and every key stored
under `origin + "/" + key` (and `"/"` under `origin + "/"`), when a first `downloadOffline`
has completed, a second one asks `addAll` for the empty list: it performs the open, the
listing and that empty `addAll` only, no network fetch, and leaves the storage as it was. -/
theorem downloadOffline_idempotent (host : Host) (net1 net2 : String → Except String Response)
    (w w1 : World)
    (hfirst : downloadOffline (some host.origin) (rootResolve host.origin) net1 noFault w =
      .ok () w1) :
    downloadOffline (some host.origin) (rootResolve host.origin) net2 noFault w1 =
      .ok () ⟨w1.caches,
        w1.trace ++ [.cachesOpen .content, .cacheKeys .content, .cacheAddAll .content []]⟩ := by
  rw [downloadOffline_run] at hfirst
  cases hf : fetchAll net1 ((absentKeys host.origin (w.caches.cache .content).keys).map
      (rootResolve host.origin)) with
  | error err =>
    rw [cacheAddAll_error _ _ _ _ _ hf] at hfirst
    cases hfirst
  | ok pairs =>
    rw [cacheAddAll_ok _ _ _ _ _ hf] at hfirst
    simp only [cache_set_content, set_set_content] at hfirst
    injection hfirst with _ hw
    have hkeys := fetchAll_keys _ _ _ hf
    have hcontent : w1.caches.content = some (pairs.foldl (fun c p => c.put p.1 p.2)
        (w.caches.cache .content)) := by
      rw [← hw]; simp [CacheStorage.set]
    have hcache : w1.caches.cache .content = pairs.foldl (fun c p => c.put p.1 p.2)
        (w.caches.cache .content) := by
      simp [CacheStorage.cache, CacheStorage.region, hcontent]
    have hempty : absentKeys host.origin (w1.caches.cache .content).keys = [] := by
      rw [hcache]
      exact absentKeys_after_batch host _ pairs hkeys
    have hset : w1.caches.set .content (some (w1.caches.cache .content)) = w1.caches := by
      obtain ⟨⟨c0, t0, m0⟩, tr0⟩ := w1
      simp only at hcontent
      subst hcontent
      rfl
    rw [downloadOffline_run, hempty,
      cacheAddAll_ok (rootResolve host.origin) net2 [] _ [] rfl]
    simp [hset, cache_set_content]

theorem downloadOffline_idempotent_witness :
    ∃ w1, downloadOffline (some exampleHost.origin) (rootResolve exampleHost.origin) exampleNet
        noFault servingWorld = .ok () w1 ∧
      downloadOffline (some exampleHost.origin) (rootResolve exampleHost.origin) offlineNet
          noFault w1 =
        .ok () ⟨w1.caches,
          w1.trace ++ [.cachesOpen .content, .cacheKeys .content, .cacheAddAll .content []]⟩ := by
  cases h : downloadOffline (some exampleHost.origin) (rootResolve exampleHost.origin)
      exampleNet noFault servingWorld with
  | ok a w1 =>
    exact ⟨w1, rfl, downloadOffline_idempotent exampleHost exampleNet offlineNet servingWorld
      w1 h⟩
  | threw err w1 =>
    exfalso
    rw [downloadOffline_run] at h
    obtain ⟨pairs, hp, _⟩ := fetchAll_exampleNet ((absentKeys exampleHost.origin
      (servingWorld.caches.cache .content).keys).map (rootResolve exampleHost.origin))
    rw [cacheAddAll_ok _ _ _ _ _ hp] at h
    cases h

/-! ## Every way activation can end -/

theorem ends_bind {α β : Type} (t : Async α) (f : α → Async β) (w : World)
    (post : β → World → Prop) (exc : World → Prop)
    (h : t.ends w (fun a w1 => (f a).ends w1 post exc) exc) :
    (t >>= f).ends w post exc := by
  simp only [Async.ends, bind_apply, Async.bind] at h ⊢
  cases ht : t w with
  | ok a w1 => simpa [ht] using h
  | threw err w1 => simpa [ht] using h

theorem ends_weaken {α : Type} (t : Async α) (w : World) (post post2 : α → World → Prop)
    (exc exc2 : World → Prop) (h : t.ends w post exc)
    (hpost : ∀ a w1, post a w1 → post2 a w1) (hexc : ∀ w1, exc w1 → exc2 w1) :
    t.ends w post2 exc2 := by
  simp only [Async.ends] at h ⊢
  cases ht : t w with
  | ok a w1 => rw [ht] at h; exact hpost a w1 h
  | threw err w1 => rw [ht] at h; exact hexc w1 h

/-- Sequencing under an invariant: `t` keeps `inv`, and from any state with `inv` the rest
ends as wanted. -/
theorem ends_seq {α β : Type} (inv : World → Prop) (t : Async α) (f : α → Async β) (w : World)
    (post : β → World → Prop) (exc : World → Prop)
    (ht : t.ends w (fun _ w1 => inv w1) inv)
    (hexc : ∀ w1, inv w1 → exc w1)
    (hf : ∀ a w1, inv w1 → (f a).ends w1 post exc) :
    (t >>= f).ends w post exc :=
  ends_bind t f w post exc (ends_weaken t w _ _ _ _ ht hf hexc)

theorem ends_pure {α : Type} (a : α) (w : World) (post : α → World → Prop)
    (exc : World → Prop) (h : post a w) : (Async.pure a).ends w post exc := h

theorem ends_raise {α : Type} (err : JSError) (w : World) (post : α → World → Prop)
    (exc : World → Prop) (h : exc w) : (raise err : Async α).ends w post exc := h

theorem ends_step {α : Type} (fails : Faults) (e : Effect) (f : CacheStorage → α × CacheStorage)
    (w : World) (post : α → World → Prop) (exc : World → Prop)
    (hexc : exc ⟨w.caches, w.trace ++ [.raised e]⟩)
    (hpost : post (f w.caches).1 ⟨(f w.caches).2, w.trace ++ [e]⟩) :
    (step fails e f).ends w post exc := by
  simp only [Async.ends, step]
  cases fails w.trace e <;> simpa

theorem ends_forEach {α : Type} (inv : World → Prop) (xs : List α) (body : α → Async Unit)
    (hbody : ∀ x w, inv w → (body x).ends w (fun _ w1 => inv w1) inv) (w : World)
    (hw : inv w) : (forEach xs body).ends w (fun _ w1 => inv w1) inv := by
  induction xs generalizing w with
  | nil => exact hw
  | cons x xs ih =>
    exact ends_seq inv (body x) (fun _ => forEach xs body) w _ _ (hbody x w hw)
      (fun _ h => h) (fun _ w1 h1 => ih w1 h1)

theorem ends_tryCatch {α : Type} (body : Async α) (handler : JSError → Async α) (w : World)
    (post : α → World → Prop) (exc : World → Prop)
    (h : body.ends w post (fun w1 => ∀ err, (handler err).ends w1 post exc)) :
    (tryCatch body handler).ends w post exc := by
  simp only [Async.ends, tryCatch] at h ⊢
  cases hb : body w with
  | ok a w1 => simpa [hb] using h
  | threw err w1 =>
    rw [hb] at h
    simpa using h err

/-- Any task ends somehow. -/
theorem ends_trivial {α : Type} (t : Async α) (w : World) :
    t.ends w (fun _ _ => True) (fun _ => True) := by
  simp only [Async.ends]
  cases t w <;> trivial

/-! ### The manifest record region until the last write -/

theorem recordUntouched_refl (w : World) : recordUntouched w w :=
  ⟨rfl, [], by simp, by simp⟩

theorem recordUntouched_step {α : Type} (w0 : World) (fails : Faults) (e : Effect)
    (f : CacheStorage → α × CacheStorage) (w : World) (hw : recordUntouched w0 w)
    (he : writesManifest e = false)
    (hf : ∀ s, (f s).2.cache .manifest = s.cache .manifest) :
    (step fails e f).ends w (fun _ w1 => recordUntouched w0 w1) (recordUntouched w0) := by
  obtain ⟨hc, ops, htr, hops⟩ := hw
  apply ends_step
  · refine ⟨hc, ops ++ [.raised e], by simp [htr], ?_⟩
    intro x hx
    rcases List.mem_append.mp hx with hx | hx
    · exact hops x hx
    · simp only [List.mem_singleton] at hx
      rw [hx]; rfl
  · refine ⟨by simpa [hf] using hc, ops ++ [e], by simp [htr], ?_⟩
    intro x hx
    rcases List.mem_append.mp hx with hx | hx
    · exact hops x hx
    · simp only [List.mem_singleton] at hx
      rw [hx]; exact he

theorem cache_manifest_set_manifest_self (s : CacheStorage) :
    (s.set .manifest (some (s.cache .manifest))).cache .manifest = s.cache .manifest := by
  simp [CacheStorage.set, CacheStorage.cache, CacheStorage.region]

theorem cache_manifest_set_content (s : CacheStorage) (c : Option Cache) :
    (s.set .content c).cache .manifest = s.cache .manifest := by
  simp [CacheStorage.set, CacheStorage.cache, CacheStorage.region]

theorem cache_manifest_set_temp (s : CacheStorage) (c : Option Cache) :
    (s.set .temp c).cache .manifest = s.cache .manifest := by
  simp [CacheStorage.set, CacheStorage.cache, CacheStorage.region]

theorem recordUntouched_cachesOpen (w0 : World) (fails : Faults) (r : Region) (w : World)
    (hw : recordUntouched w0 w) :
    (cachesOpen fails r).ends w (fun _ w1 => recordUntouched w0 w1) (recordUntouched w0) := by
  apply recordUntouched_step w0 fails _ _ w hw (by rfl)
  intro s
  cases r
  · exact cache_manifest_set_content s _
  · exact cache_manifest_set_temp s _
  · exact cache_manifest_set_manifest_self s

theorem recordUntouched_cacheMatch (w0 : World) (fails : Faults) (r : Region) (url : String)
    (w : World) (hw : recordUntouched w0 w) :
    (cacheMatch fails r url).ends w (fun _ w1 => recordUntouched w0 w1) (recordUntouched w0) :=
  recordUntouched_step w0 fails _ _ w hw (by rfl) (by intro s; rfl)

theorem recordUntouched_cacheKeys (w0 : World) (fails : Faults) (r : Region)
    (w : World) (hw : recordUntouched w0 w) :
    (cacheKeys fails r).ends w (fun _ w1 => recordUntouched w0 w1) (recordUntouched w0) :=
  recordUntouched_step w0 fails _ _ w hw (by rfl) (by intro s; rfl)

theorem recordUntouched_readJson (w0 : World) (fails : Faults) (m : Response)
    (w : World) (hw : recordUntouched w0 w) :
    (readJson fails m).ends w (fun _ w1 => recordUntouched w0 w1) (recordUntouched w0) := by
  simp only [readJson]
  cases m.body with
  | text s => exact ends_raise _ _ _ _ hw
  | manifest obj => exact recordUntouched_step w0 fails _ _ w hw (by rfl) (by intro s; rfl)

theorem recordUntouched_copyTemp (w0 : World) (fails : Faults) (w : World)
    (hw : recordUntouched w0 w) :
    (copyTemp fails).ends w (fun _ w1 => recordUntouched w0 w1) (recordUntouched w0) := by
  simp only [copyTemp]
  refine ends_seq (recordUntouched w0) _ _ w _ _ (recordUntouched_cacheKeys w0 fails .temp w hw)
    (fun _ h => h) (fun keys w1 h1 => ?_)
  refine ends_forEach (recordUntouched w0) keys _ (fun request w2 h2 => ?_) w1 h1
  refine ends_seq (recordUntouched w0) _ _ w2 _ _
    (recordUntouched_cacheMatch w0 fails .temp request w2 h2) (fun _ h => h)
    (fun response w3 h3 => ?_)
  cases response with
  | none => exact ends_raise _ _ _ _ h3
  | some resp =>
    simp only [cachePut]
    exact recordUntouched_step w0 fails _ _ w3 h3 (by rfl)
      (by intro s; exact cache_manifest_set_content s _)

/-- What the last two operations of either path do from a state in which the record region
is untouched. -/
theorem ends_record_write (w0 : World) (fails : Faults) (w : World)
    (hw : recordUntouched w0 w) :
    (cachePut fails .manifest "manifest" (some manifestRecord) >>= fun _ => clientsClaim).ends w
      (fun _ w1 => ∃ ops, w1.trace = w0.trace ++ ops ++
          [.cachePut .manifest "manifest", .clientsClaim] ∧
        (∀ e ∈ ops, writesManifest e = false) ∧
        (w1.caches.cache .manifest).find "manifest" = some manifestRecord)
      (fun w1 => w1.caches.cache .manifest = w0.caches.cache .manifest) := by
  apply ends_bind
  simp only [cachePut]
  apply ends_step
  · exact hw.1
  · obtain ⟨_, ops, htr, hops⟩ := hw
    simp only [Async.ends, clientsClaim]
    refine ⟨ops, by simp [htr], hops, ?_⟩
    simp [CacheStorage.set, CacheStorage.cache, CacheStorage.region, Cache.find_put,
      sameResource_refl]

/-- Every way the `try` block can end, as far as the manifest record is concerned. -/
theorem activateBody_ends (host : Host) (fails : Faults) (w : World) :
    (activateBody host fails).ends w
      (fun _ w1 => ∃ ops, w1.trace = w.trace ++ ops ++
          [.cachePut .manifest "manifest", .clientsClaim] ∧
        (∀ e ∈ ops, writesManifest e = false) ∧
        (w1.caches.cache .manifest).find "manifest" = some manifestRecord)
      (fun w1 => w1.caches.cache .manifest = w.caches.cache .manifest) := by
  have hexc : ∀ w1, recordUntouched w w1 →
      w1.caches.cache .manifest = w.caches.cache .manifest := fun _ h => h.1
  simp only [activateBody]
  refine ends_seq (recordUntouched w) _ _ w _ _
    (recordUntouched_cachesOpen w fails .content w (recordUntouched_refl w)) hexc
    (fun _ w1 h1 => ?_)
  refine ends_seq (recordUntouched w) _ _ w1 _ _
    (recordUntouched_cachesOpen w fails .temp w1 h1) hexc (fun _ w2 h2 => ?_)
  refine ends_seq (recordUntouched w) _ _ w2 _ _
    (recordUntouched_cachesOpen w fails .manifest w2 h2) hexc (fun _ w3 h3 => ?_)
  refine ends_seq (recordUntouched w) _ _ w3 _ _
    (recordUntouched_cacheMatch w fails .manifest "manifest" w3 h3) hexc
    (fun manifest w4 h4 => ?_)
  cases manifest with
  | none =>
    refine ends_seq (recordUntouched w) _ _ w4 _ _
      (recordUntouched_step w fails _ _ w4 h4 (by rfl)
        (by intro s; exact cache_manifest_set_content s _))
      hexc (fun _ w5 h5 => ?_)
    refine ends_seq (recordUntouched w) _ _ w5 _ _
      (recordUntouched_cachesOpen w fails .content w5 h5) hexc (fun _ w6 h6 => ?_)
    refine ends_seq (recordUntouched w) _ _ w6 _ _
      (recordUntouched_copyTemp w fails w6 h6) hexc (fun _ w7 h7 => ?_)
    refine ends_seq (recordUntouched w) _ _ w7 _ _
      (recordUntouched_step w fails _ _ w7 h7 (by rfl)
        (by intro s; exact cache_manifest_set_temp s _))
      hexc (fun _ w8 h8 => ?_)
    exact ends_record_write w fails w8 h8
  | some record =>
    refine ends_seq (recordUntouched w) _ _ w4 _ _
      (recordUntouched_readJson w fails record w4 h4) hexc (fun oldManifest w5 h5 => ?_)
    refine ends_seq (recordUntouched w) _ _ w5 _ _
      (recordUntouched_cacheKeys w fails .content w5 h5) hexc (fun keys w6 h6 => ?_)
    refine ends_seq (recordUntouched w) _ _ w6 _ _
      (ends_forEach (recordUntouched w) keys _ (fun request w0 h0 => ?_) w6 h6) hexc
      (fun _ w7 h7 => ?_)
    · split
      · exact recordUntouched_step w fails _ _ w0 h0 (by rfl)
          (by intro s; exact cache_manifest_set_content s _)
      · exact ends_pure _ _ _ _ h0
    refine ends_seq (recordUntouched w) _ _ w7 _ _
      (recordUntouched_copyTemp w fails w7 h7) hexc (fun _ w8 h8 => ?_)
    refine ends_seq (recordUntouched w) _ _ w8 _ _
      (recordUntouched_step w fails _ _ w8 h8 (by rfl)
        (by intro s; exact cache_manifest_set_temp s _))
      hexc (fun _ w9 h9 => ?_)
    exact ends_record_write w fails w9 h9

/-! ### The staging region at the end of activation -/

/-- The `catch` block either raises or ends with the staging region deleted. -/
theorem teardown_ends (fails : Faults) (w : World) :
    (do
      cachesDelete fails .content
      cachesDelete fails .temp
      cachesDelete fails .manifest : Async Unit).ends w
      (fun _ w1 => w1.caches.temp = none) (fun _ => True) := by
  apply ends_bind
  apply ends_step _ _ _ _ _ _ trivial
  apply ends_bind
  apply ends_step _ _ _ _ _ _ trivial
  apply ends_step _ _ _ _ _ _ trivial
  simp [CacheStorage.set]

/-- The last three operations of either path end with the staging region deleted. -/
theorem ends_staging_deleted (fails : Faults) (w : World) (exc : World → Prop)
    (hexc : ∀ w1, exc w1) :
    (do
      cachesDelete fails .temp
      cachePut fails .manifest "manifest" (some manifestRecord)
      clientsClaim : Async Unit).ends w (fun _ w1 => w1.caches.temp = none) exc := by
  apply ends_bind
  apply ends_step _ _ _ _ _ _ (hexc _)
  apply ends_bind
  simp only [cachePut]
  apply ends_step _ _ _ _ _ _ (hexc _)
  simp [Async.ends, clientsClaim, CacheStorage.set]

/-- Every way activation can end: with the staging region deleted, or by raising. -/
theorem activate_ends (host : Host) (fails : Faults) (w : World) :
    (activate host fails).ends w (fun _ w1 => w1.caches.temp = none) (fun _ => True) := by
  have hexc : ∀ w1 : World, ∀ err : JSError,
      ((fun _ => (do
        cachesDelete fails .content
        cachesDelete fails .temp
        cachesDelete fails .manifest : Async Unit)) err).ends w1
        (fun _ w2 => w2.caches.temp = none) (fun _ => True) :=
    fun w1 _ => teardown_ends fails w1
  have hany : ∀ w1 : World, True → ∀ err : JSError,
      ((fun _ => (do
        cachesDelete fails .content
        cachesDelete fails .temp
        cachesDelete fails .manifest : Async Unit)) err).ends w1
        (fun _ w2 => w2.caches.temp = none) (fun _ => True) :=
    fun w1 _ => hexc w1
  simp only [activate]
  apply ends_tryCatch
  simp only [activateBody]
  refine ends_seq (fun _ => True) _ _ w _ _ (ends_trivial _ w) hany (fun _ w1 _ => ?_)
  refine ends_seq (fun _ => True) _ _ w1 _ _ (ends_trivial _ w1) hany (fun _ w2 _ => ?_)
  refine ends_seq (fun _ => True) _ _ w2 _ _ (ends_trivial _ w2) hany (fun _ w3 _ => ?_)
  refine ends_seq (fun _ => True) _ _ w3 _ _ (ends_trivial _ w3) hany
    (fun manifest w4 _ => ?_)
  cases manifest with
  | none =>
    refine ends_seq (fun _ => True) _ _ w4 _ _ (ends_trivial _ w4) hany (fun _ w5 _ => ?_)
    refine ends_seq (fun _ => True) _ _ w5 _ _ (ends_trivial _ w5) hany (fun _ w6 _ => ?_)
    refine ends_seq (fun _ => True) _ _ w6 _ _ (ends_trivial _ w6) hany (fun _ w7 _ => ?_)
    exact ends_staging_deleted fails w7 _ hexc
  | some record =>
    refine ends_seq (fun _ => True) _ _ w4 _ _ (ends_trivial _ w4) hany (fun _ w5 _ => ?_)
    refine ends_seq (fun _ => True) _ _ w5 _ _ (ends_trivial _ w5) hany (fun _ w6 _ => ?_)
    refine ends_seq (fun _ => True) _ _ w6 _ _ (ends_trivial _ w6) hany (fun _ w7 _ => ?_)
    refine ends_seq (fun _ => True) _ _ w7 _ _ (ends_trivial _ w7) hany (fun _ w8 _ => ?_)
    exact ends_staging_deleted fails w8 _ hexc

/-- The `catch` block, run when its three deletions do not raise. -/
theorem teardown_run (fails : Faults) (w : World) (h : teardownRuns fails w = true) :
    (do
      cachesDelete fails .content
      cachesDelete fails .temp
      cachesDelete fails .manifest : Async Unit) w =
      .ok () ⟨⟨none, none, none⟩,
        w.trace ++ [.cachesDelete .content, .cachesDelete .temp, .cachesDelete .manifest]⟩ := by
  simp only [teardownRuns, Bool.and_eq_true, Bool.not_eq_eq_eq_not, Bool.not_true] at h
  obtain ⟨⟨hd1, hd2⟩, hd3⟩ := h
  simp [bind_apply, Async.bind, cachesDelete, step, hd1, hd2, hd3, CacheStorage.set]

/-- C17, as stated, fails: from a state whose manifest record does not parse, with the
deletion of the content cache raising, the `try` block raises at `json()`, the `catch` block
raises at its first deletion, and activation ends with the staging cache still there, with
both its entries. -/
theorem staging_survives_failed_teardown :
    activate exampleHost contentDeleteFails malformedRecordWorld =
        .threw (.storage (.cachesDelete .content)) staleStagingWorld ∧
      staleStagingWorld.caches.temp ≠ none ∧
      (staleStagingWorld.caches.cache .temp).keys =
        ["https://app.example/main.dart.js", "https://app.example/index.html"] := by
  decide

/-- C17, amended: whenever activation ends normally, by Path A, by Path B or through the
`catch` block after an error at any step, the staging region is deleted; and activation ends
otherwise only when the `try` block raised and a deletion of the `catch` block raised too. -/
theorem staging_never_outlives_activation (host : Host) (fails : Faults) (w : World) :
    (∀ w1, activate host fails w = .ok () w1 → w1.caches.temp = none) ∧
    (∀ err w1, activate host fails w = .threw err w1 →
      ∃ err0 w0, activateBody host fails w = .threw err0 w0 ∧
        teardownRuns fails w0 = false) := by
  constructor
  · intro w1 h
    have he := activate_ends host fails w
    simp only [Async.ends, h] at he
    exact he
  · intro err w1 h
    simp only [activate, tryCatch] at h
    cases hb : activateBody host fails w with
    | ok a w0 => simp [hb] at h
    | threw err0 w0 =>
      refine ⟨err0, w0, rfl, ?_⟩
      simp only [hb] at h
      cases ht : teardownRuns fails w0 with
      | false => rfl
      | true =>
        rw [teardown_run fails w0 ht] at h
        cases h

theorem staging_never_outlives_activation_witness :
    activate exampleHost contentPutFails upgradeWorld = .ok () tornDownWorld ∧
      tornDownWorld.caches.temp = none :=
  ⟨by decide,
    (staging_never_outlives_activation exampleHost contentPutFails upgradeWorld).1
      tornDownWorld (by decide)⟩

/-- C18: when the `try` block of activation ends normally, by either path, the `put` of the
new manifest record is its last storage operation, followed only by `clients.claim()`, and
no earlier operation wrote to the manifest record region; and when the `try` block stops at
any earlier operation, the manifest record region holds what it held before activation. -/
theorem manifest_record_written_last (host : Host) (fails : Faults) (w : World) :
    (∀ w1, activateBody host fails w = .ok () w1 →
      ∃ ops, w1.trace = w.trace ++ ops ++ [.cachePut .manifest "manifest", .clientsClaim] ∧
        (∀ e ∈ ops, writesManifest e = false) ∧
        (w1.caches.cache .manifest).find "manifest" = some manifestRecord) ∧
    (∀ err w1, activateBody host fails w = .threw err w1 →
      w1.caches.cache .manifest = w.caches.cache .manifest) := by
  have he := activateBody_ends host fails w
  constructor
  · intro w1 h
    simp only [Async.ends, h] at he
    exact he
  · intro err w1 h
    simp only [Async.ends, h] at he
    exact he

theorem manifest_record_written_last_witness :
    activateBody exampleHost contentPutFails upgradeWorld =
        .threw (.storage (.cachePut .content "https://app.example/main.dart.js"))
          putFailedWorld ∧
      putFailedWorld.caches.cache .manifest = upgradeWorld.caches.cache .manifest :=
  ⟨by decide,
    (manifest_record_written_last exampleHost contentPutFails upgradeWorld).2
      (.storage (.cachePut .content "https://app.example/main.dart.js")) putFailedWorld
      (by decide)⟩

/-- With no global `origin` and a content cache that is not empty, `downloadOffline` raises a
`ReferenceError` after the open and the listing, and asks for nothing. -/
theorem downloadOffline_unbound_origin (resolve : String → String)
    (net : String → Except String Response) (w : World) (u : String)
    (hu : u ∈ (w.caches.cache .content).keys) :
    downloadOffline none resolve net noFault w =
      .threw .referenceError ⟨w.caches.set .content (some (w.caches.cache .content)),
        w.trace ++ [.cachesOpen .content, .cacheKeys .content]⟩ := by
  cases hk : (w.caches.cache .content).keys with
  | nil => rw [hk] at hu; cases hu
  | cons x xs =>
    simp [downloadOffline, bind_apply, Async.bind, cachesOpen, cacheKeys, step_noFault,
      cache_set_content, hk, markContent, raise]

end FlutterSW
